import Mathlib

/-!
Verification model of `src/judy64nb.c` (Judy-array trie engine, 64-bit
little-endian configuration).

Modeling conventions:
* Machine words (`JudySlot`, `judyvalue`) are `Nat`; overflow never occurs on
  the modeled paths, masking is `% 2^k` / `&&&`.
* Node addresses are abstract identifiers.  Real nodes are 8-byte aligned, so
  the C tagged child reference `addr | type` is modeled as the natural
  `8 * id + type`; `slot & JUDY_mask` becomes `8 * (slot / 8)` and
  `slot & 7` becomes `slot % 8`.  Slot value `0` is the empty slot.
* A node's memory is split into its key-byte area (`bytes`, C `base[i]`) and
  its descending slot area (`slots i`, C `node[-i-1]`).  The two regions are
  disjoint in the C layout, so this split is faithful.
* The external allocator (`malloc`) is modeled by the `mallocOK` flag of the
  state; `judy_alloc` / `judy_data` return `none` exactly where the C
  functions return `NULL`.
-/

set_option maxRecDepth 8000

namespace Judy

/-- Modelled from the spec: `judy64nb.h` is not in the repository.  Constants
of the canonical 64-bit configuration per spec §6 and §3: slot/key width
W = 8 bytes, key mask 7.  The span payload is a multiple of W (§4.6 consumes
it one W-byte digit at a time) and its node size must fit the linear-2 reuse
class it is recycled into, giving 3·W = 24 payload bytes. -/
def JUDY_key_size : Nat := 8

/-- Modelled from the spec: low three bits of an offset select the byte
within a W-byte digit. -/
def JUDY_key_mask : Nat := 7

/-- Modelled from the spec: slots are one machine word (8 bytes). -/
def JUDY_slot_size : Nat := 8

/-- Modelled from the spec: span payload bytes (see `JUDY_key_size`). -/
def JUDY_span_bytes : Nat := 3 * JUDY_key_size

/-- Node type tags (low 3 bits of a child reference). -/
def JUDY_radix : Nat := 0
def JUDY_1 : Nat := 1
def JUDY_2 : Nat := 2
def JUDY_4 : Nat := 3
def JUDY_8 : Nat := 4
def JUDY_16 : Nat := 5
def JUDY_32 : Nat := 6
def JUDY_span : Nat := 7

def JUDY_max : Nat := JUDY_32

/-- Modelled from the spec: size class a radix node is recycled as
(the linear class of equal byte size, 16 slots = 128 bytes = linear-8). -/
def JUDY_radix_equiv : Nat := JUDY_8

/-- Modelled from the spec: size class a span node is recycled as
(24 + 8 = 32 bytes = linear-2). -/
def JUDY_span_equiv : Nat := JUDY_2

def JUDY_seg : Nat := 65536
def JUDY_cache_line : Nat := 8

/-- Node byte sizes per type, `int JudySize[]` of the source. -/
def JudySize (t : Nat) : Nat :=
  [JUDY_slot_size * 16,
   JUDY_slot_size + JUDY_key_size,
   2 * JUDY_slot_size + 2 * JUDY_key_size,
   4 * JUDY_slot_size + 4 * JUDY_key_size,
   8 * JUDY_slot_size + 8 * JUDY_key_size,
   16 * JUDY_slot_size + 16 * JUDY_key_size,
   32 * JUDY_slot_size + 32 * JUDY_key_size,
   JUDY_span_bytes + JUDY_slot_size].getD t 0

/-- `judyvalue JudyMask[]` of the source: low-`k`-bytes mask. -/
def JudyMask (k : Nat) : Nat := 256 ^ k - 1

/-- Tagged slot values. -/
abbrev Slot := Nat

def tagOf (s : Slot) : Nat := s % 8
def addrOf (s : Slot) : Nat := s / 8
def mkSlot (a t : Nat) : Slot := 8 * a + t

/-- One cursor frame, C struct `JudyStack` (modelled from the spec: the header
is absent; fields per spec §3 "Cursor").  `slot` is a C `int` and can be -1
after a failed linear-node scan. -/
structure JudyStack where
  next : Slot := 0
  off : Nat := 0
  slot : Int := 0
  deriving Repr, DecidableEq

/-- One node's memory: key-byte area and descending slot area
(`slots i` is C `node[-i-1]`). -/
structure JNode where
  bytes : Nat → Nat
  slots : Nat → Slot

def emptyNode : JNode := ⟨fun _ => 0, fun _ => 0⟩

/-- The trie handle, C struct `Judy` (modelled from the spec: the header is
absent; fields per spec §3 "Trie handle").  `hwm` is the supply of fresh
abstract node addresses; `hasSeg`/`segNext` model `judy->seg` and
`judy->seg->next`; `mallocOK` models whether the external allocator
succeeds. -/
structure JState where
  root : Slot
  heap : Nat → JNode
  hwm : Nat
  reuse : Nat → List Nat
  hasSeg : Bool
  segNext : Nat
  mallocOK : Bool
  level : Nat
  stack : Nat → JudyStack
  max : Nat
  depth : Nat

def getSlot (j : JState) (a i : Nat) : Slot := (j.heap a).slots i
def getByte (j : JState) (a i : Nat) : Nat := (j.heap a).bytes i

def setNodeSlot (n : JNode) (i v : Nat) : JNode :=
  { n with slots := fun i' => if i' = i then v else n.slots i' }

def setNodeByte (n : JNode) (i v : Nat) : JNode :=
  { n with bytes := fun i' => if i' = i then v else n.bytes i' }

def hupd (h : Nat → JNode) (a : Nat) (n : JNode) : Nat → JNode :=
  fun a' => if a' = a then n else h a'

def setSlot (j : JState) (a i v : Nat) : JState :=
  { j with heap := hupd j.heap a (setNodeSlot (j.heap a) i v) }

def setByte (j : JState) (a i v : Nat) : JState :=
  { j with heap := hupd j.heap a (setNodeByte (j.heap a) i v) }

def rupd (r : Nat → List Nat) (t : Nat) (l : List Nat) : Nat → List Nat :=
  fun t' => if t' = t then l else r t'

def supd (st : Nat → JudyStack) (i : Nat) (f : JudyStack) : Nat → JudyStack :=
  fun i' => if i' = i then f else st i'

/-- A cell / child-slot location: either the root slot of the handle or slot
`i` of node `a` (C pointer `&node[-i-1]`, or `&table[i]` for radix tables). -/
inductive Loc where
  | root
  | node (a i : Nat)
  deriving Repr, DecidableEq

def readLoc (j : JState) : Loc → Slot
  | .root => j.root
  | .node a i => getSlot j a i

def writeLoc (j : JState) (l : Loc) (v : Slot) : JState :=
  match l with
  | .root => { j with root := v }
  | .node a i => setSlot j a i v

/-- The size class actually used by the allocator for a node type
(`judy_alloc` redirects radix and span to linear classes). -/
def allocClass (ty : Nat) : Nat :=
  if ty = JUDY_radix then JUDY_radix_equiv
  else if ty = JUDY_span then JUDY_span_equiv
  else ty

/-- Scan `judy->reuse` for a non-empty class strictly above `t`
(the break-down loop of `judy_alloc`); `k` counts up from `t+1`. -/
def findLarger (r : Nat → List Nat) (k : Nat) : Nat → Option Nat
  | 0 => none
  | n+1 =>
    match r k with
    | _ :: _ => some k
    | [] => findLarger r (k+1) n

/-- Register the fragments of a broken-down block on classes
`t, t+1, ..., f-1` (fresh abstract addresses stand for `block + JudySize`
offsets).  Returns the updated reuse map and heap with `cntFrag` fresh ids
consumed starting at `hwm`. -/
def addFrags (r : Nat → List Nat) (h : Nat → JNode) (hwm t : Nat) :
    Nat → (Nat → List Nat) × (Nat → JNode) × Nat
  | 0 => (r, h, hwm)
  | n+1 =>
    let r := rupd r (t + n) [hwm]
    let h := hupd h hwm emptyNode
    addFrags r h (hwm + 1) t n

/-- `judy_alloc`: allocate a zeroed node of type `ty`; `none` is the C
`NULL` return (no segment, or the external allocator failed). -/
def judy_alloc (j : JState) (ty : Nat) : Option (JState × Nat) :=
  if !j.hasSeg then none else
  let t := allocClass ty
  let amt := JudySize t
  match j.reuse t with
  | b :: rest =>
    some ({ j with reuse := rupd j.reuse t rest, heap := hupd j.heap b emptyNode }, b)
  | [] =>
    match findLarger j.reuse (t+1) (JUDY_max - t) with
    | some f =>
      match j.reuse f with
      | b :: rest =>
        let r := rupd j.reuse f rest
        let (r, h, hwm) := addFrags r j.heap j.hwm t (f - t)
        some ({ j with reuse := r, heap := hupd h b emptyNode, hwm := hwm }, b)
      | [] => none
    | none =>
      let fits := amt + 16 ≤ j.segNext
      if fits then
        some ({ j with segNext := j.segNext - amt,
                       heap := hupd j.heap j.hwm emptyNode,
                       hwm := j.hwm + 1 }, j.hwm)
      else if j.mallocOK then
        some ({ j with segNext := JUDY_seg - amt,
                       heap := hupd j.heap j.hwm emptyNode,
                       hwm := j.hwm + 1 }, j.hwm)
      else none

/-- `judy_data`: raw arena allocation (returns only the updated state and an
abstract address); `none` is the C `NULL` return. -/
def judy_data (j : JState) (amt : Nat) : Option (JState × Nat) :=
  if !j.hasSeg then none else
  let amt := if amt % 8 = 0 then amt else amt + (8 - amt % 8)
  if amt + 16 ≤ j.segNext then
    some ({ j with segNext := j.segNext - amt, hwm := j.hwm + 1 }, j.hwm)
  else if j.mallocOK then
    some ({ j with segNext := JUDY_seg - amt, hwm := j.hwm + 1 }, j.hwm)
  else none

/-- `judy_free`: push a node on its class's reuse list. -/
def judy_free (j : JState) (a ty : Nat) : JState :=
  let t := allocClass ty
  { j with reuse := rupd j.reuse t (a :: j.reuse t) }

/-- Read byte `i` of a key buffer (C `buff[i]`). -/
def bget (k : List Nat) (i : Nat) : Nat := k.getD i 0

/-- Little-endian value of `n` bytes of `f` starting at `base`
(a C `*(judyvalue *)p` load masked to `n` bytes). -/
def leBytes (f : Nat → Nat) : Nat → Nat → Nat
  | _, 0 => 0
  | base, n+1 => f base + 256 * leBytes f (base+1) n

/-- The partial key stored in slot `i` of a linear node, as a numeric digit
value: C `*(judyvalue *)(base + slot * keysize) & JudyMask[keysize]`. -/
def keyVal (j : JState) (a i ks : Nat) : Nat := leBytes (getByte j a) (i * ks) ks

/-- C `src[d]` in fixed-integer mode: the caller's d-th key word. -/
def srcWord (k : List Nat) (d : Nat) : Nat := leBytes (bget k) (8 * d) 8

/-- Big-endian digit assembly of `judy_slot`/`judy_cell` in byte-string mode:
`do { value <<= 8; if (off < max) value |= buff[off]; } while (++off & 7)`. -/
def buildValue (k : List Nat) (max : Nat) : Nat → Nat → Nat → Nat
  | _, 0, v => v
  | off, n+1, v =>
    buildValue k max (off+1) n (v * 256 + (if off < max then bget k off else 0))

/-- Downward scan of a linear node for the greatest partial key ≤ `value`:
returns (C `slot`, C `test`) after the `while (slot--)` loop. -/
def linScan (key : Nat → Nat) (value : Nat) : Nat → Int × Nat
  | 0 => (-1, 0)
  | n+1 =>
    let t := key n
    if t ≤ value then ((n : Int), t)
    else
      match n with
      | 0 => (-1, t)
      | m+1 => linScan key value (m+1)

/-- C `strncmp(f, g, n) == 0` starting at index `i` (stops at a common zero
byte). -/
def strncmpEq (f g : Nat → Nat) : Nat → Nat → Bool
  | _, 0 => true
  | i, n+1 => (f i == g i) && ((f i == 0) || strncmpEq f g (i+1) n)

/-- Push a cursor frame: `if (level < max) level++; stack[level].next = next;
stack[level].off = off;` (the `slot` field keeps its previous value). -/
def pushFrame (j : JState) (next off : Nat) : JState × Nat :=
  let lvl := if j.level < j.max then j.level + 1 else j.level
  ({ j with level := lvl,
            stack := supd j.stack lvl { j.stack lvl with next := next, off := off } },
   lvl)

def setFrameSlot (j : JState) (lvl : Nat) (sl : Int) : JState :=
  { j with stack := supd j.stack lvl { j.stack lvl with slot := sl } }

/-- Descent loop of `judy_slot`.  Returns the updated handle (cursor only is
written) and the found cell, `none` for the C `NULL` return. -/
def slotLoop (buff : List Nat) (max : Nat) :
    Nat → JState → Slot → Nat → Nat → JState × Option Loc
  | 0, j, _, _, _ => (j, none)
  | fuel+1, j, next, off, depth =>
    if next = 0 then (j, none) else
    let (j, lvl) := pushFrame j next off
    let t := tagOf next
    if t = JUDY_radix then
      let a := addrOf next
      let (sl, off') :=
        if j.depth ≠ 0 then
          ((srcWord buff depth >>> ((JUDY_key_size - (off+1) % 8) * 8)) % 256, off + 1)
        else if off < max then (bget buff off, off + 1)
        else (0, off)
      let j := setFrameSlot j lvl (Int.ofNat sl)
      let outer := getSlot j a (sl / 16)
      if outer = 0 then (j, none) else
      let ia := addrOf outer
      let depth' := if j.depth ≠ 0 ∧ off' % 8 = 0 then depth + 1 else depth
      if (j.depth = 0 ∧ sl = 0) ∨ (j.depth ≠ 0 ∧ depth' = j.depth) then
        if getSlot j ia (sl % 16) ≠ 0 then (j, some (.node ia (sl % 16)))
        else (j, none)
      else slotLoop buff max fuel j (getSlot j ia (sl % 16)) off' depth'
    else if t = JUDY_span then
      let a := addrOf next
      let cnt := JUDY_span_bytes
      let tst := min cnt (max - off)
      let eqv := strncmpEq (getByte j a) (fun i => bget buff (off + i)) 0 tst
      if eqv ∧ tst < cnt ∧ getByte j a tst = 0 then (j, some (.node a 0))
      else if eqv ∧ tst = cnt then
        slotLoop buff max fuel j (getSlot j a 0) (off + cnt) depth
      else (j, none)
    else
      let size := JudySize t
      let a := addrOf next
      let keysize := JUDY_key_size - off % 8
      let cnt := size / (JUDY_slot_size + keysize)
      let (value, off', depth') :=
        if j.depth ≠ 0 then
          (srcWord buff depth % 256 ^ keysize, (off / 8) * 8 + 8, depth + 1)
        else
          (buildValue buff max off keysize 0, (off / 8) * 8 + 8, depth)
      let (sl, test) := linScan (fun i => keyVal j a i keysize) value cnt
      let j := setFrameSlot j lvl sl
      if test = value then
        if (j.depth = 0 ∧ value % 256 = 0) ∨ (j.depth ≠ 0 ∧ depth' = j.depth) then
          (j, some (.node a sl.toNat))
        else slotLoop buff max fuel j (getSlot j a sl.toNat) off' depth'
      else (j, none)

/-- `judy_slot`: find the cell of a key and set up the cursor. -/
def judy_slot (j : JState) (buff : List Nat) (max fuel : Nat) : JState × Option Loc :=
  slotLoop buff max fuel { j with level := 0 } j.root 0 0

def bupd (b : Nat → Nat) (i v : Nat) : Nat → Nat :=
  fun i' => if i' = i then v else b i'

/-- Fixed-mode `dest[w] = 0`. -/
def zeroWord (b : Nat → Nat) (w : Nat) : Nat → Nat :=
  fun i => if 8*w ≤ i ∧ i < 8*w + 8 then 0 else b i

/-- Fixed-mode `dest[w] |= v`, on the byte level (the contributions of the
source never overlap in nonzero bytes, and C `|=` is bytewise here). -/
def orWord (b : Nat → Nat) (w v : Nat) : Nat → Nat :=
  fun i => if 8*w ≤ i ∧ i < 8*w + 8 then b i ||| ((v >>> (8 * (i - 8*w))) % 256) else b i

/-- Byte-mode linear-node piece of `judy_key`:
`off = keysize; while (off-- && len < max) if ((buff[len] = base[...+off])) len++;
else break;` — `base` is already offset to the chosen slot's key bytes. -/
def keyLin (base : Nat → Nat) (b : Nat → Nat) (len max : Nat) :
    Nat → ((Nat → Nat) × Nat)
  | 0 => (b, len)
  | off+1 =>
    if len < max then
      let byte := base off
      let b := bupd b len byte
      if byte ≠ 0 then keyLin base b (len+1) max off else (b, len)
    else (b, len)

/-- Span piece of `judy_key`: copy stored bytes up to the first zero. -/
def keySpan (base : Nat → Nat) (b : Nat → Nat) (len max i : Nat) :
    Nat → ((Nat → Nat) × Nat)
  | 0 => (b, len)
  | n+1 =>
    if base i ≠ 0 then
      if len < max then keySpan base (bupd b len (base i)) (len+1) max (i+1) n
      else keySpan base b len max (i+1) n
    else (b, len)

/-- Frame walk of `judy_key` (`n` bounds the number of iterations). -/
def keyLoop (j : JState) (max : Nat) : Nat → (Nat → Nat) → Nat → Nat → ((Nat → Nat) × Nat)
  | 0, b, len, _ => (bupd b len 0, len)
  | n+1, b, len, idx =>
    if len < max ∧ idx + 1 ≤ j.level then
      let idx := idx + 1
      let fr := j.stack idx
      let t := tagOf fr.next
      let sl := fr.slot.toNat
      let a := addrOf fr.next
      let depth := len / JUDY_key_size
      let b := if j.depth ≠ 0 ∧ len % 8 = 0 then zeroWord b depth else b
      if t = JUDY_radix then
        if j.depth ≠ 0 then
          let len' := len + 1
          let b := orWord b depth ((sl : Nat) <<< ((JUDY_key_size - len' % 8) * 8))
          let depth' := if len' % 8 = 0 then depth + 1 else depth
          if depth' < j.depth then keyLoop j max n b len' idx else (b, len')
        else
          if sl = 0 then keyLoop j max n b len idx
          else keyLoop j max n (bupd b len (sl % 256)) (len + 1) idx
      else if t = JUDY_span then
        let (b, len) := keySpan (getByte j a) b len max 0 JUDY_span_bytes
        keyLoop j max n b len idx
      else
        let keysize := JUDY_key_size - fr.off % 8
        if j.depth ≠ 0 then
          let value := keyVal j a sl keysize
          let b := orWord b depth value
          let len' := len + keysize
          if depth + 1 < j.depth then keyLoop j max n b len' idx else (b, len')
        else
          let (b, len) := keyLin (fun o => getByte j a (sl * keysize + o)) b len max keysize
          keyLoop j max n b len idx
    else (bupd b len 0, len)

/-- `judy_key`: assemble the current Cursor's key into the caller's buffer
`b0`; returns the written buffer and the returned length. -/
def judy_key (j : JState) (b0 : Nat → Nat) (max0 : Nat) : (Nat → Nat) × Nat :=
  let max := if j.depth ≠ 0 then j.depth * JUDY_key_size
             else if max0 = 0 then 2 ^ 32 - 1 else max0 - 1
  keyLoop j max (j.level + 1) b0 0 0

/-- Upward scan of `judy_first`'s linear case: first index with a non-empty
slot, `cnt` if none. -/
def linFirstScan (slots : Nat → Nat) (i : Nat) : Nat → Nat
  | 0 => i
  | n+1 => if slots i ≠ 0 then i else linFirstScan slots (i+1) n

/-- Upward radix scan (`judy_first` / `judy_nxt`): starting at byte `sl`,
find the next occupied (outer, inner) pair; `slot |= 0x0F` skips an absent
inner table. -/
def rxScanUp (j : JState) (a : Nat) : Nat → Nat → Option Nat
  | _, 0 => none
  | sl, n+1 =>
    if sl ≥ 256 then none else
    let outer := getSlot j a (sl / 16)
    if addrOf outer ≠ 0 then
      if getSlot j (addrOf outer) (sl % 16) ≠ 0 then some sl
      else rxScanUp j a (sl + 1) n
    else rxScanUp j a ((sl / 16) * 16 + 16) n

/-- Downward radix scan of `judy_last`: `sl` is the C `slot` value after the
`slot--` of the loop head. -/
def rxScanDn (j : JState) (a : Nat) : Nat → Nat → Option Nat
  | _, 0 => none
  | sl, n+1 =>
    let outer := getSlot j a (sl / 16)
    if addrOf outer ≠ 0 then
      if getSlot j (addrOf outer) (sl % 16) ≠ 0 then some sl
      else match sl with
           | 0 => none
           | m+1 => rxScanDn j a m n
    else
      match (sl / 16) * 16 with
      | 0 => none
      | m+1 => rxScanDn j a m n

/-- Descent loop of `judy_first`: always take the smallest occupied slot. -/
def firstLoop : Nat → JState → Slot → Nat → Nat → JState × Option Loc
  | 0, j, _, _, _ => (j, none)
  | fuel+1, j, next, off, depth =>
    if next = 0 then (j, none) else
    let (j, lvl) := pushFrame j next off
    let t := tagOf next
    if t = JUDY_radix then
      let off := off + 1
      let depth := if j.depth ≠ 0 ∧ off % 8 = 0 then depth + 1 else depth
      let a := addrOf next
      match rxScanUp j a 0 257 with
      | none => (j, none)
      | some sl =>
        let j := setFrameSlot j lvl (Int.ofNat sl)
        let ia := addrOf (getSlot j a (sl / 16))
        if (j.depth = 0 ∧ sl = 0) ∨ (j.depth ≠ 0 ∧ depth = j.depth) then
          (j, some (.node ia (sl % 16)))
        else firstLoop fuel j (getSlot j ia (sl % 16)) off depth
    else if t = JUDY_span then
      let a := addrOf next
      if getByte j a (JUDY_span_bytes - 1) = 0 then (j, some (.node a 0))
      else firstLoop fuel j (getSlot j a 0) (off + JUDY_span_bytes) depth
    else
      let size := JudySize t
      let a := addrOf next
      let keysize := JUDY_key_size - off % 8
      let cnt := size / (JUDY_slot_size + keysize)
      let sl := linFirstScan ((j.heap a).slots) 0 cnt
      let j := setFrameSlot j lvl (Int.ofNat sl)
      let depth' := if j.depth ≠ 0 then depth + 1 else depth
      if (j.depth = 0 ∧ getByte j a (sl * keysize) = 0) ∨
         (j.depth ≠ 0 ∧ depth' = j.depth) then
        (j, some (.node a sl))
      else firstLoop fuel j (getSlot j a sl) ((off / 8) * 8 + 8) depth'

/-- Descent loop of `judy_last`: always take the largest occupied slot. -/
def lastLoop : Nat → JState → Slot → Nat → Nat → JState × Option Loc
  | 0, j, _, _, _ => (j, none)
  | fuel+1, j, next, off, depth =>
    if next = 0 then (j, none) else
    let (j, lvl) := pushFrame j next off
    let t := tagOf next
    if t = JUDY_radix then
      let a := addrOf next
      let off := off + 1
      let depth := if j.depth ≠ 0 ∧ off % 8 = 0 then depth + 1 else depth
      match rxScanDn j a 255 257 with
      | none =>
        -- the loop wrote every visited slot index; it ends at 0
        (setFrameSlot j lvl 0, none)
      | some sl =>
        let j := setFrameSlot j lvl (Int.ofNat sl)
        let ia := addrOf (getSlot j a (sl / 16))
        if (j.depth = 0 ∧ sl = 0) ∨ (j.depth ≠ 0 ∧ depth = j.depth) then
          (j, some (.node ia 0))
        else lastLoop fuel j (getSlot j ia (sl % 16)) off depth
    else if t = JUDY_span then
      let a := addrOf next
      if getByte j a (JUDY_span_bytes - 1) = 0 then (j, some (.node a 0))
      else lastLoop fuel j (getSlot j a 0) (off + JUDY_span_bytes) depth
    else
      let size := JudySize t
      let a := addrOf next
      let keysize := JUDY_key_size - off % 8
      let sl := size / (JUDY_slot_size + keysize) - 1
      let j := setFrameSlot j lvl (Int.ofNat sl)
      let depth' := if j.depth ≠ 0 then depth + 1 else depth
      if (j.depth = 0 ∧ getByte j a (sl * keysize) = 0) ∨
         (j.depth ≠ 0 ∧ depth' = j.depth) then
        (j, some (.node a sl))
      else lastLoop fuel j (getSlot j a sl) (off + keysize) depth'

/-- `judy_end`: cell of the last key. -/
def judy_end (j : JState) (fuel : Nat) : JState × Option Loc :=
  lastLoop fuel { j with level := 0 } j.root 0 0

/-- Pop-and-advance loop of `judy_nxt`. -/
def nxtLoop : Nat → JState → JState × Option Loc
  | 0, j => (j, none)
  | fuel+1, j =>
    if j.level = 0 then (j, none) else
    let lvl := j.level
    let fr := j.stack lvl
    let next := fr.next
    let off := fr.off
    let keysize := JUDY_key_size - off % 8
    let size := JudySize (tagOf next)
    let depth := off / JUDY_key_size
    let t := tagOf next
    if t = JUDY_radix then
      let a := addrOf next
      let depth := if j.depth ≠ 0 ∧ (off + 1) % 8 = 0 then depth + 1 else depth
      match rxScanUp j a ((fr.slot + 1).toNat) 257 with
      | some sl =>
        let j := setFrameSlot j lvl (Int.ofNat sl)
        let ia := addrOf (getSlot j a (sl / 16))
        if j.depth = 0 ∨ depth < j.depth then
          firstLoop fuel j (getSlot j ia (sl % 16)) (off + 1) depth
        else (j, some (.node ia (sl % 16)))
      | none => nxtLoop fuel { j with level := lvl - 1 }
    else if t = JUDY_span then
      nxtLoop fuel { j with level := lvl - 1 }
    else
      let a := addrOf next
      let cnt := size / (JUDY_slot_size + keysize)
      let sl := (fr.slot + 1).toNat
      if sl < cnt then
        let depth' := if j.depth ≠ 0 then depth + 1 else depth
        let j := setFrameSlot j lvl (Int.ofNat sl)
        if (j.depth = 0 ∧ getByte j a (sl * keysize) = 0) ∨
           (j.depth ≠ 0 ∧ depth' = j.depth) then
          (j, some (.node a sl))
        else firstLoop fuel j (getSlot j a sl) ((off / 8) * 8 + 8) depth'
      else nxtLoop fuel { j with level := lvl - 1 }

/-- `judy_nxt`: next cell in order (`judy_first` when unpositioned). -/
def judy_nxt (j : JState) (fuel : Nat) : JState × Option Loc :=
  if j.level = 0 then firstLoop fuel { j with level := 0 } j.root 0 0
  else nxtLoop fuel j

/-- Downward radix scan of `judy_prv` (`slv` is the loop counter before the
`slot--` of the loop head); returns the found byte. -/
def rxScanPrv (j : JState) (a : Nat) : Nat → Nat → Option Nat
  | _, 0 => none
  | 0, _ => none
  | slv+1, n+1 =>
    let sl := slv
    let outer := getSlot j a (sl / 16)
    if addrOf outer ≠ 0 ∧ getSlot j (addrOf outer) (sl % 16) ≠ 0 then some sl
    else rxScanPrv j a slv n

/-- Pop-and-retreat loop of `judy_prv`. -/
def prvLoop : Nat → JState → JState × Option Loc
  | 0, j => (j, none)
  | fuel+1, j =>
    if j.level = 0 then (j, none) else
    let lvl := j.level
    let fr := j.stack lvl
    let next := fr.next
    let off := fr.off
    let depth := off / JUDY_key_size
    let t := tagOf next
    if t = JUDY_radix then
      let a := addrOf next
      let depth := if j.depth ≠ 0 ∧ (off + 1) % 8 = 0 then depth + 1 else depth
      match rxScanPrv j a fr.slot.toNat 257 with
      | some sl =>
        let j := setFrameSlot j lvl (Int.ofNat sl)
        let ia := addrOf (getSlot j a (sl / 16))
        if (j.depth = 0 ∧ sl = 0) ∨ (j.depth ≠ 0 ∧ depth = j.depth) then
          (j, some (.node ia 0))
        else lastLoop fuel j (getSlot j ia (sl % 16)) (off + 1) depth
      | none =>
        -- the loop decremented the frame's slot down to 0 before popping
        prvLoop fuel { (setFrameSlot j lvl 0) with level := lvl - 1 }
    else if t = JUDY_span then
      prvLoop fuel { j with level := lvl - 1 }
    else
      let a := addrOf next
      let sl := fr.slot.toNat
      if sl = 0 ∨ getSlot j a (sl - 1) = 0 then
        prvLoop fuel { j with level := lvl - 1 }
      else
        let j := setFrameSlot j lvl (fr.slot - 1)
        let keysize := JUDY_key_size - off % 8
        let depth' := if j.depth ≠ 0 then depth + 1 else depth
        if (j.depth = 0 ∧ getByte j a ((sl - 1) * keysize) = 0) ∨
           (j.depth ≠ 0 ∧ depth' = j.depth) then
          (j, some (.node a (sl - 1)))
        else lastLoop fuel j (getSlot j a (sl - 1)) ((off / 8) * 8 + 8) depth'

/-- `judy_prv`: previous cell in order (`judy_last` when unpositioned). -/
def judy_prv (j : JState) (fuel : Nat) : JState × Option Loc :=
  if j.level = 0 then lastLoop fuel { j with level := 0 } j.root 0 0
  else prvLoop fuel j

def copyWithin (j : JState) (a dst src : Nat) : Nat → JState
  | 0 => j
  | n+1 => copyWithin (setByte j a (dst + n) (getByte j a (src + n))) a dst src n

def zeroBytes (j : JState) (a st : Nat) : Nat → JState
  | 0 => j
  | n+1 => zeroBytes (setByte j a (st + n) 0) a st n

/-- Shift loop of `judy_del`'s linear case: entry `i` gets entry `i-1`,
for `i` from the deleted slot down to 1. -/
def delShift (j : JState) (a ks : Nat) : Nat → JState
  | 0 => j
  | sl+1 =>
    let j := setSlot j a (sl+1) (getSlot j a sl)
    let j := copyWithin j a ((sl+1) * ks) (sl * ks) ks
    delShift j a ks sl

def anySlotNonzero (j : JState) (a : Nat) : Nat → Bool
  | 0 => false
  | n+1 => (getSlot j a n != 0) || anySlotNonzero j a n

/-- Frame-unwinding loop of `judy_del`; when the stack empties the root is
zeroed and `NULL` is returned. -/
def delLoop : Nat → JState → JState × Option Loc
  | 0, j => (j, none)
  | fuel+1, j =>
    if j.level = 0 then ({ j with root := 0 }, none) else
    let lvl := j.level
    let fr := j.stack lvl
    let next := fr.next
    let off := fr.off
    let t := tagOf next
    if t = JUDY_radix then
      let a := addrOf next
      let sl := fr.slot.toNat
      let ia := addrOf (getSlot j a (sl / 16))
      let j := setSlot j ia (sl % 16) 0
      if anySlotNonzero j ia 16 then judy_prv j fuel
      else
        let j := judy_free j ia JUDY_radix
        let j := setSlot j a (sl / 16) 0
        if anySlotNonzero j a 16 then judy_prv j fuel
        else delLoop fuel { (judy_free j a JUDY_radix) with level := lvl - 1 }
    else if t = JUDY_span then
      delLoop fuel { (judy_free j (addrOf next) JUDY_span) with level := lvl - 1 }
    else
      let a := addrOf next
      let keysize := JUDY_key_size - off % 8
      let cnt := JudySize t / (JUDY_slot_size + keysize)
      let j := delShift j a keysize fr.slot.toNat
      let j := setSlot j a 0 0
      let j := zeroBytes j a 0 keysize
      if getSlot j a (cnt - 1) ≠ 0 then
        judy_prv (setFrameSlot j lvl (fr.slot + 1)) fuel
      else delLoop fuel { (judy_free j a t) with level := lvl - 1 }

/-- `judy_del`: delete the cell at the cursor, returning the previous cell. -/
def judy_del (j : JState) (fuel : Nat) : JState × Option Loc :=
  delLoop fuel j

/-- `judy_strt`: cell of the first key greater than or equal to the given
key (per the source comment). -/
def judy_strt (j : JState) (buff : List Nat) (max fuel : Nat) : JState × Option Loc :=
  let j := { j with level := 0 }
  if max = 0 then firstLoop fuel j j.root 0 0
  else
    match judy_slot j buff max fuel with
    | (j, some cell) => (j, some cell)
    | (j, none) => judy_nxt j fuel

/-- Copy `n` key bytes from node `src` at `sOff` to node `dst` at `dOff`
(a C `memcpy` between distinct nodes). -/
def copyNodeBytes (j : JState) (dst dOff src sOff : Nat) : Nat → JState
  | 0 => j
  | n+1 => copyNodeBytes (setByte j dst (dOff + n) (getByte j src (sOff + n))) dst dOff src sOff n

/-- Store `v` little-endian into `n` key bytes of node `a` at `off`
(C `memcpy(base + ..., &value, keysize)`). -/
def storeLE (j : JState) (a off v : Nat) : Nat → JState
  | 0 => j
  | n+1 => storeLE (setByte j a off (v % 256)) a (off+1) (v / 256) n

/-- First pointer-copy loop of `judy_promote`:
`newnode[-(slot + newcnt - oldcnt)] = node[-(slot+1)]` for `slot < idx`. -/
def promoteSlots (j : JState) (na oa d : Nat) : Nat → JState
  | 0 => j
  | i+1 => promoteSlots (setSlot j na (i + d) (getSlot j oa i)) na oa d i

/-- Second pointer-copy loop of `judy_promote` (`n` slots from `idx` up). -/
def promoteSlots2 (j : JState) (na oa d idx : Nat) : Nat → JState
  | 0 => j
  | n+1 =>
    let j := promoteSlots2 j na oa d idx n
    setSlot j na (idx + n + d + 1) (getSlot j oa (idx + n))

/-- `judy_promote`: replace a full linear node by the next larger size with
the new key inserted at `idx`; returns the new key's (zero) child slot.
`none` is the unchecked `NULL` of `judy_alloc`. -/
def judy_promote (j : JState) (next : Loc) (idx value keysize : Nat) :
    Option (JState × Loc) := do
  let old := readLoc j next
  let oa := addrOf old
  let ty := tagOf old + 1
  let oldcnt := JudySize (ty - 1) / (JUDY_slot_size + keysize)
  let newcnt := JudySize ty / (JUDY_slot_size + keysize)
  let (j, na) ← judy_alloc j ty
  let j := writeLoc j next (mkSlot na ty)
  let d := newcnt - oldcnt - 1
  let j := copyNodeBytes j na (d * keysize) oa 0 (idx * keysize)
  let j := promoteSlots j na oa d idx
  let j := storeLE j na ((idx + d) * keysize) value keysize
  let j := copyNodeBytes j na ((idx + d + 1) * keysize) oa (idx * keysize)
             ((oldcnt - idx) * keysize)
  let j := promoteSlots2 j na oa d idx (oldcnt - idx)
  let fr := j.stack j.level
  let fr := { fr with next := mkSlot na ty, slot := ((idx + d : Nat) : Int) }
  let j := { j with stack := supd j.stack j.level fr }
  let j := judy_free j oa (ty - 1)
  return (j, Loc.node na (idx + d))

/-- Node-type sizing loop of `judy_radix`
(`do type++ ... while (cnt > newcnt && type < JUDY_max)`). -/
def radixNodeType (cnt ks : Nat) : Nat → Nat → Nat
  | ty, 0 => ty
  | ty, n+1 =>
    if cnt > JudySize ty / (JUDY_slot_size + ks) ∧ ty < JUDY_max then
      radixNodeType cnt ks (ty+1) n
    else ty

/-- Copy loop of `judy_radix`: move `cnt` entries of group `[start, start+cnt)`
into the top of the new node, dropping the leading key byte
(little-endian: keep the low `ks` of `ks+1` stored bytes). -/
def radixCopy (j : JState) (na ks oa start cnt newcnt : Nat) : Nat → JState
  | 0 => j
  | i+1 =>
    let j := copyNodeBytes j na ((newcnt - i - 1) * ks) oa ((start + cnt - i - 1) * (ks+1)) ks
    let j := setSlot j na (newcnt - i - 1) (getSlot j oa (start + cnt - i - 1))
    radixCopy j na ks oa start cnt newcnt i

/-- `judy_radix`: install one group of a split linear-32 node under the
outer radix node `ra`. -/
def judy_radix (j : JState) (ra oa start slotEnd keysize key depth : Nat) :
    Option JState := do
  let cnt := slotEnd - start
  let (j, ta) ←
    if addrOf (getSlot j ra (key / 16)) = 0 then do
      let (j, t) ← judy_alloc j JUDY_radix
      pure (setSlot j ra (key / 16) (mkSlot t JUDY_radix), t)
    else pure (j, addrOf (getSlot j ra (key / 16)))
  if (j.depth = 0 ∧ (key = 0 ∨ keysize = 0)) ∨
     (j.depth ≠ 0 ∧ keysize = 0 ∧ depth = j.depth) then
    return setSlot j ta (key % 16) (getSlot j oa start)
  else
    let ty := radixNodeType cnt keysize 1 6
    let newcnt := JudySize ty / (JUDY_slot_size + keysize)
    let (j, na) ← judy_alloc j ty
    let j := setSlot j ta (key % 16) (mkSlot na ty)
    return radixCopy j na keysize oa start cnt newcnt cnt

/-- Grouping loop of `judy_splitnode` (`key = 0x100` is the sentinel for
"no group open yet"; the first key byte of entry `slot` is its top stored
byte, little-endian). -/
def splitLoop (j : JState) (ra oa ks depth cnt : Nat) (slot start key : Nat) :
    Nat → Option JState
  | 0 => do
    let j ← judy_radix j ra oa start slot (ks - 1) (key % 256) depth
    return judy_free j oa JUDY_max
  | n+1 =>
    if slot < cnt then
      let nxt := getByte j oa (slot * ks + ks - 1)
      let key := if key > 255 then nxt else key
      if nxt = key then splitLoop j ra oa ks depth cnt (slot+1) start key n
      else do
        let j ← judy_radix j ra oa start slot (ks - 1) (key % 256) depth
        splitLoop j ra oa ks depth cnt (slot+1) slot nxt n
    else do
      let j ← judy_radix j ra oa start slot (ks - 1) (key % 256) depth
      return judy_free j oa JUDY_max

/-- `judy_splitnode`: decompose a full linear-32 node into radix nodes. -/
def judy_splitnode (j : JState) (next : Loc) (size keysize depth : Nat) :
    Option JState := do
  let oa := addrOf (readLoc j next)
  let cnt := size / (JUDY_slot_size + keysize)
  let (j, ra) ← judy_alloc j JUDY_radix
  let j := writeLoc j next (mkSlot ra JUDY_radix)
  splitLoop j ra oa keysize depth cnt 0 0 256 (cnt + 1)

/-- Reverse byte copy of `judy_splitspan`:
`i = 8; while (i--) *newbase++ = base[off + i];`. -/
def revCopy (j : JState) (na oa off : Nat) : Nat → JState
  | 0 => j
  | k+1 => revCopy (setByte j na k (getByte j oa (off + (7 - k)))) na oa off k

/-- Chain-building loop of `judy_splitspan`. -/
def splitSpanLoop (j : JState) (oa : Nat) (next : Loc) (off cnt : Nat) :
    Nat → Option (JState × Loc)
  | 0 => some (j, next)
  | n+1 => do
    let (j, na) ← judy_alloc j JUDY_1
    let j := writeLoc j next (mkSlot na JUDY_1)
    let j := revCopy j na oa off 8
    let next := Loc.node na 0
    let off := off + JUDY_key_size
    let cnt := cnt - JUDY_key_size
    if cnt ≠ 0 ∧ getByte j oa (off - 1) ≠ 0 then splitSpanLoop j oa next off cnt n
    else return (j, next)

/-- `judy_splitspan`: break a span node into a chain of linear-1 nodes,
reattaching the span's child at the end. -/
def judy_splitspan (j : JState) (next : Loc) (oa : Nat) : Option JState := do
  let (j, last) ← splitSpanLoop j oa next 0 JUDY_span_bytes 4
  let j := writeLoc j last (getSlot j oa 0)
  return judy_free j oa JUDY_span

/-- Result of `judy_cell`: `crash` models the C dereference of an unchecked
`NULL` allocation (undefined behavior in the source); `out` is model fuel
exhaustion (never reached with adequate fuel). -/
inductive CellRes where
  | crash
  | out (j : JState)
  | ret (j : JState) (cell : Loc)

/-- Byte-level `memmove(base, base + keysize, slot * keysize)` of
`judy_cell`'s open-up path (shift keys below the new key down one slot). -/
def moveDownB (j : JState) (a ks p : Nat) : Nat → JState
  | 0 => j
  | n+1 => moveDownB (setByte j a p (getByte j a (p + ks))) a ks (p+1) n

/-- `for (idx = 0; idx < slot; idx++) node[-idx-1] = node[-idx-2];`. -/
def slotsDown (j : JState) (a idx : Nat) : Nat → JState
  | 0 => j
  | n+1 => slotsDown (setSlot j a idx (getSlot j a (idx+1))) a (idx+1) n

/-- Push a frame with all three fields written (creation phase of
`judy_cell`). -/
def pushFrameFull (j : JState) (next off : Nat) : JState :=
  let lvl := if j.level < j.max then j.level + 1 else j.level
  { j with level := lvl, stack := supd j.stack lvl { next := next, off := off, slot := 0 } }

/-- Byte-mode key-byte fill of the creation-phase linear-1 node:
`while (keysize) if (off + keysize <= max) *base++ = buff[off + --keysize];
else base++, --keysize;`. -/
def fillPartialB (j : JState) (na : Nat) (buff : List Nat) (max off jdx : Nat) :
    Nat → JState
  | 0 => j
  | k+1 =>
    if off + (k+1) ≤ max then
      fillPartialB (setByte j na jdx (bget buff (off + k))) na buff max off (jdx+1) k
    else fillPartialB j na buff max off (jdx+1) k

/-- `memcpy(base, buff + boff, n)` into node key bytes. -/
def copyFromBuff (j : JState) (a st : Nat) (buff : List Nat) (boff : Nat) : Nat → JState
  | 0 => j
  | n+1 => copyFromBuff (setByte j a (st + n) (bget buff (boff + n))) a st buff boff n

/-- Byte-mode creation loop of `judy_cell`: spans consuming the rest of the
key. -/
def spanCreate (buff : List Nat) (max : Nat) : Nat → JState → Loc → Nat → CellRes
  | 0, j, _, _ => .out j
  | n+1, j, next, off =>
    if off ≤ max then
      match judy_alloc j JUDY_span with
      | none => .crash
      | some (j, na) =>
        let j := writeLoc j next (mkSlot na JUDY_span)
        let tst := min JUDY_span_bytes (max - off)
        let j := copyFromBuff j na 0 buff off tst
        let j := pushFrameFull j (mkSlot na JUDY_span) off
        let next := Loc.node na 0
        let off := off + tst
        if getByte j na (JUDY_span_bytes - 1) = 0 then .ret j next
        else spanCreate buff max n j next off
    else .ret j next

/-- Fixed-mode creation loop of `judy_cell`: one linear-1 node per remaining
digit. -/
def digitCreate (buff : List Nat) : Nat → JState → Loc → Nat → Nat → CellRes
  | 0, j, _, _, _ => .out j
  | n+1, j, next, off, depth =>
    if depth < j.depth then
      match judy_alloc j JUDY_1 with
      | none => .crash
      | some (j, na) =>
        let j := writeLoc j next (mkSlot na JUDY_1)
        let j := storeLE j na 0 (srcWord buff depth) 8
        let j := pushFrameFull j (mkSlot na JUDY_1) off
        digitCreate buff n j (Loc.node na 0) ((off / 8) * 8 + 8) (depth + 1)
    else .ret j next

/-- Creation phase of `judy_cell` after the descent found a zero slot:
optionally a linear-1 node for the rest of the current digit, then spans
(byte mode) or linear-1 digits (fixed mode). -/
def cellCreate (buff : List Nat) (max fuel : Nat) (j : JState) (next : Loc)
    (off depth : Nat) : CellRes :=
  if off % 8 ≠ 0 ∧ (j.depth ≠ 0 ∨ off ≤ max) then
    match judy_alloc j JUDY_1 with
    | none => .crash
    | some (j, na) =>
      let keysize := JUDY_key_size - off % 8
      let j := writeLoc j next (mkSlot na JUDY_1)
      let j :=
        if j.depth ≠ 0 then storeLE j na 0 (srcWord buff depth) keysize
        else fillPartialB j na buff max off 0 keysize
      let j := pushFrameFull j (mkSlot na JUDY_1) off
      if j.depth = 0 then spanCreate buff max fuel j (Loc.node na 0) ((off / 8) * 8 + 8)
      else digitCreate buff fuel j (Loc.node na 0) ((off / 8) * 8 + 8) (depth + 1)
  else
    if j.depth = 0 then spanCreate buff max fuel j next off
    else digitCreate buff fuel j next off depth

/-- Descent-and-insert loop of `judy_cell`. -/
def cellLoop (buff : List Nat) (max : Nat) :
    Nat → JState → Loc → Nat → Nat → CellRes
  | 0, j, _, _, _ => .out j
  | fuel+1, j, next, off, depth =>
    let nval := readLoc j next
    if nval = 0 then cellCreate buff max (fuel+1) j next off depth else
    let (j, lvl) := pushFrame j nval off
    let t := tagOf nval
    if t = JUDY_radix then
      let a := addrOf nval
      let (sl, off') :=
        if j.depth ≠ 0 then
          ((srcWord buff depth >>> ((JUDY_key_size - (off+1) % 8) * 8)) % 256, off + 1)
        else if off < max then (bget buff off, off + 1)
        else (0, off + 1)
      let depth' := if j.depth ≠ 0 ∧ off' % 8 = 0 then depth + 1 else depth
      match (if getSlot j a (sl / 16) = 0 then
               (judy_alloc j JUDY_radix).map
                 (fun p => setSlot p.1 a (sl / 16) (mkSlot p.2 JUDY_radix))
             else some j) with
      | none => .crash
      | some j =>
        let ia := addrOf (getSlot j a (sl / 16))
        let j := setFrameSlot j lvl (Int.ofNat sl)
        let next := Loc.node ia (sl % 16)
        if (j.depth = 0 ∧ sl = 0) ∨ (j.depth ≠ 0 ∧ depth' = j.depth) then
          .ret j next
        else cellLoop buff max fuel j next off' depth'
    else if t = JUDY_span then
      let a := addrOf nval
      let cnt := JUDY_span_bytes
      let tst := min cnt (max - off)
      let eqv := strncmpEq (getByte j a) (fun i => bget buff (off + i)) 0 tst
      if eqv ∧ tst < cnt ∧ getByte j a tst = 0 then .ret j (.node a 0)
      else if eqv ∧ tst = cnt then
        cellLoop buff max fuel j (.node a 0) (off + cnt) depth
      else
        match judy_splitspan j next a with
        | none => .crash
        | some j => cellLoop buff max fuel { j with level := j.level - 1 } next off depth
    else
      let size := JudySize t
      let a := addrOf nval
      let keysize := JUDY_key_size - off % 8
      let cnt := size / (JUDY_slot_size + keysize)
      let start := off
      let (value, off', depth') :=
        if j.depth ≠ 0 then
          (srcWord buff depth % 256 ^ keysize, (off / 8) * 8 + 8, depth + 1)
        else (buildValue buff max off keysize 0, (off / 8) * 8 + 8, depth)
      let (sl, test) := linScan (fun i => keyVal j a i keysize) value cnt
      let j := setFrameSlot j lvl sl
      if test = value then
        let next := Loc.node a sl.toNat
        if (j.depth = 0 ∧ value % 256 = 0) ∨ (j.depth ≠ 0 ∧ depth' = j.depth) then
          .ret j next
        else cellLoop buff max fuel j next off' depth'
      else if getSlot j a 0 = 0 then
        let sln := sl.toNat
        let j := moveDownB j a keysize 0 (sln * keysize)
        let j := storeLE j a (sln * keysize) value keysize
        let j := slotsDown j a 0 sln
        let j := setSlot j a sln 0
        let next := Loc.node a sln
        if (j.depth = 0 ∧ value % 256 = 0) ∨ (j.depth ≠ 0 ∧ depth' = j.depth) then
          .ret j next
        else cellLoop buff max fuel j next off' depth'
      else if size < JudySize JUDY_max then
        match judy_promote j next ((sl + 1).toNat) value keysize with
        | none => .crash
        | some (j, next) =>
          if (j.depth = 0 ∧ value % 256 = 0) ∨ (j.depth ≠ 0 ∧ depth' = j.depth) then
            .ret j next
          else cellLoop buff max fuel j next off' depth'
      else
        match judy_splitnode j next size keysize depth' with
        | none => .crash
        | some j => cellLoop buff max fuel { j with level := j.level - 1 } next start depth

/-- `judy_cell`: find or insert a key, returning its cell. -/
def judy_cell (j : JState) (buff : List Nat) (max fuel : Nat) : CellRes :=
  cellLoop buff max fuel { j with level := 0 } Loc.root 0 0

/-- `judy_open` (modelled from the spec for the handle's own footprint:
`sizeof(Judy)` = 112 and `sizeof(JudyStack)` = 16 in the canonical 64-bit
layout).  `mallocOK` is the external-allocator oracle. -/
def judy_open (max0 depth : Nat) (mallocOK : Bool) : Option JState :=
  let max := if depth ≠ 0 then JUDY_key_size * depth else max0 + 1
  if !mallocOK then none else
  let amt0 := 112 + max * 16
  let amt := if amt0 % 8 = 0 then amt0 else amt0 + (8 - amt0 % 8)
  some { root := 0, heap := fun _ => emptyNode, hwm := 1,
         reuse := fun _ => [], hasSeg := true,
         segNext := JUDY_seg - amt, mallocOK := mallocOK,
         level := 0, stack := fun _ => {}, max := max, depth := depth }

/-! Concrete example states used by the claim theorems below. -/

/-- The state `judy_open(64, 0)` produces (byte-string mode, working
allocator); see `judy_open_exOpen`. -/
def exOpen : JState :=
  { root := 0, heap := fun _ => emptyNode, hwm := 1, reuse := fun _ => [],
    hasSeg := true, segNext := 64384, mallocOK := true, level := 0,
    stack := fun _ => {}, max := 65, depth := 0 }

/-- Insert a key and store value 1 in its cell (the caller contract of the
source: "Each cell must be set to a non-zero value by the caller"). -/
def insEx (j : JState) (k : List Nat) (fuel : Nat) : JState :=
  match judy_cell j k k.length fuel with
  | .ret j c => writeLoc j c 1
  | _ => j

/-- Trie containing only the key "a". -/
def exA : JState := insEx exOpen [97] 9

/-- `exA` after one `judy_nxt` from the post-insert cursor: the cursor is
exhausted (`level = 0`) while the trie still holds "a". -/
def exAEnd : JState := (judy_nxt exA 9).1

/-- Trie containing only the key "zz" (one terminal span node). -/
def exZZ : JState := insEx exOpen [122, 122] 9

def CellRes.isCrash : CellRes → Bool
  | .crash => true
  | _ => false

/-- `exZZ` with the head segment exhausted and a failing external
allocator. -/
def exOOM : JState := { exZZ with segNext := 0, mallocOK := false }

/-- Only the cursor (level and stack) differs between two states: root
slot, heap (all trie nodes), address supply, reuse lists, segment state and
configuration are identical. -/
def cursorOnly (j j' : JState) : Prop :=
  j'.root = j.root ∧ j'.heap = j.heap ∧ j'.hwm = j.hwm ∧ j'.reuse = j.reuse ∧
  j'.hasSeg = j.hasSeg ∧ j'.segNext = j.segNext ∧ j'.mallocOK = j.mallocOK ∧
  j'.max = j.max ∧ j'.depth = j.depth

/-- Cursor stays within bounds: `max` unchanged, the new level is at most
`max`, and no frame above index `max` was written. -/
def stackOK (j j' : JState) : Prop :=
  j'.max = j.max ∧ j'.level ≤ j.max ∧ ∀ i, j.max < i → j'.stack i = j.stack i

/-- The cursor-relevant fields of a state. -/
def cursorMeta (j : JState) : Nat × Nat × (Nat → JudyStack) := (j.level, j.max, j.stack)

/-- Cursor bound for a `judy_cell` result (a crash carries no state). -/
def cellOK (j : JState) : CellRes → Prop
  | .crash => True
  | .out j' => stackOK j j'
  | .ret j' _ => stackOK j j'

/-! Theorems. -/

/-- Sanity link: `exOpen` is literally what `judy_open` returns. -/
theorem judy_open_exOpen : judy_open 64 0 true = some exOpen := rfl

/-- When every reuse list is empty, the break-down scan of `judy_alloc`
finds nothing. -/
theorem findLarger_nil (r : Nat → List Nat) (h : ∀ t, r t = []) :
    ∀ n k, findLarger r k n = none := by
  intro n
  induction n with
  | zero => intro k; rfl
  | succ m ih => intro k; simp [findLarger, h k, ih]

/-- C4 counterexample: in the trie `exZZ`, the key "zz" is present (its
cell, slot 0 of span node 1, holds the caller's value 1, and `judy_slot`
finds it), yet `judy_strt` on the key "a" returns absent although the
present key "zz" is strictly greater than "a" — so `strt` does not return
the first cell whose key is ≥ the search key. -/
theorem c4_counterexample :
    (judy_slot exZZ [122, 122] 2 9).2 = some (Loc.node 1 0) ∧
    readLoc exZZ (Loc.node 1 0) = 1 ∧
    (judy_key (judy_slot exZZ [122, 122] 2 9).1 (fun _ => 0) 64).2 = 2 ∧
    (judy_strt exZZ [97] 1 9).2 = none := by decide

/-- C4 amended: for a non-empty key, `judy_strt` returns the cell found by
`judy_slot` when the lookup succeeds; when the lookup misses it returns
whatever `judy_nxt` yields from the miss cursor — which, as
`c4_counterexample` shows, is not always the smallest present key greater
than the search key (the miss cursor can sit on a span node whose subtree
`judy_nxt` then pops past). -/
theorem c4_strt_amended (j : JState) (buff : List Nat) (max fuel : Nat)
    (h : max ≠ 0) :
    judy_strt j buff max fuel =
      (match judy_slot j buff max fuel with
       | (j', some cell) => (j', some cell)
       | (j', none) => judy_nxt j' fuel) := by
  simp [judy_strt, judy_slot, h]

/-- C4 witness: the amended behavior at the counterexample's instance. -/
theorem c4_witness :
    (1 : Nat) ≠ 0 ∧
    judy_strt exZZ [97] 1 9 =
      (match judy_slot exZZ [97] 1 9 with
       | (j', some cell) => (j', some cell)
       | (j', none) => judy_nxt j' 9) :=
  ⟨by decide, c4_strt_amended exZZ [97] 1 9 (by decide)⟩

/-- C6 counterexample: `exAEnd` has an unpositioned cursor (`level = 0`)
and a non-empty trie (root slot is the tagged span node 15, and the key "a"
is present), yet `judy_del` zeroes the root slot — it is not a no-op that
leaves the root unchanged. -/
theorem c6_counterexample :
    exAEnd.level = 0 ∧ exAEnd.root = 15 ∧
    (judy_del exAEnd 9).1.root = 0 ∧ (judy_del exAEnd 9).2 = none := by decide

/-- C6 amended: with an unpositioned cursor `judy_del` returns a null
result and unconditionally zeroes the root slot, leaving every other
component of the handle unchanged: on an empty trie this is a no-op, but on
a non-empty trie it discards all present keys (without freeing any node). -/
theorem c6_del_amended (j : JState) (fuel : Nat) (h : j.level = 0) :
    judy_del j (fuel + 1) = ({ j with root := 0 }, none) := by
  simp [judy_del, delLoop, h]

/-- C6 witness: the amended behavior on the empty trie `exOpen`. -/
theorem c6_witness :
    exOpen.level = 0 ∧ judy_del exOpen 1 = ({ exOpen with root := 0 }, none) :=
  ⟨rfl, c6_del_amended exOpen 0 rfl⟩

/-- C7 counterexample: in `exOOM` (segment exhausted, external allocator
failing) both arena entry points do return the null indicator, but
`judy_cell` on the absent key "b" — which must allocate to split the span
holding "zz" — does not return a null cell: it dereferences the unchecked
null allocation (the `crash` result of the model). -/
theorem c7_counterexample :
    (judy_alloc exOOM JUDY_1).isNone = true ∧
    (judy_data exOOM 32).isNone = true ∧
    (judy_cell exOOM [98] 1 9).isCrash = true := by decide

/-- C7 amended: when the head segment is exhausted, every reuse list is
empty and the external allocator fails, the arena entry points `judy_alloc`
and `judy_data` return the null indicator — but the engine never checks
them: `judy_cell` dereferences the null allocation (modeled `crash`)
instead of returning a null cell, as in the concrete `exOOM` run. -/
theorem c7_oom_amended (j : JState) (ty amt : Nat)
    (h1 : ∀ t, j.reuse t = []) (h2 : j.segNext = 0) (h3 : j.mallocOK = false) :
    judy_alloc j ty = none ∧ judy_data j amt = none ∧
    (judy_cell exOOM [98] 1 9).isCrash = true := by
  refine ⟨?_, ?_, by decide⟩
  · cases hs : j.hasSeg with
    | false => simp [judy_alloc, hs]
    | true =>
      simp only [judy_alloc, hs]
      simp [h1, h2, h3, findLarger_nil j.reuse h1]
  · cases hs : j.hasSeg with
    | false => simp [judy_data, hs]
    | true => simp [judy_data, hs, h2, h3]

/-- C7 witness: the amended statement at the concrete `exOOM` state. -/
theorem c7_witness :
    judy_alloc exOOM JUDY_1 = none ∧ judy_data exOOM 32 = none ∧
    (judy_cell exOOM [98] 1 9).isCrash = true :=
  c7_oom_amended exOOM JUDY_1 32 (fun _ => rfl) rfl rfl

theorem cursorOnly_refl (j : JState) : cursorOnly j j := by
  simp [cursorOnly]

theorem cursorOnly_trans {j j' j'' : JState} (h1 : cursorOnly j j')
    (h2 : cursorOnly j' j'') : cursorOnly j j'' := by
  obtain ⟨a1,a2,a3,a4,a5,a6,a7,a8,a9⟩ := h1
  obtain ⟨b1,b2,b3,b4,b5,b6,b7,b8,b9⟩ := h2
  exact ⟨b1.trans a1, b2.trans a2, b3.trans a3, b4.trans a4, b5.trans a5,
         b6.trans a6, b7.trans a7, b8.trans a8, b9.trans a9⟩

theorem cursorOnly_pushFrame (j : JState) (n o : Nat) :
    cursorOnly j (pushFrame j n o).1 := by
  simp [cursorOnly, pushFrame]

theorem cursorOnly_setFrameSlot {j j' : JState} (h : cursorOnly j j') (l : Nat) (s : Int) :
    cursorOnly j (setFrameSlot j' l s) :=
  cursorOnly_trans h (by simp [cursorOnly, setFrameSlot])

theorem cursorOnly_setLevel {j j' : JState} (h : cursorOnly j j') (l : Nat) :
    cursorOnly j { j' with level := l } :=
  cursorOnly_trans h (by simp [cursorOnly])

theorem slotLoop_frame (buff : List Nat) (max : Nat) :
    ∀ fuel j next off depth, cursorOnly j (slotLoop buff max fuel j next off depth).1 := by
  intro fuel
  induction fuel with
  | zero => intro j next off depth; exact cursorOnly_refl j
  | succ f ih =>
    intro j next off depth
    simp only [slotLoop]
    repeat' split
    all_goals first
      | exact cursorOnly_refl _
      | exact cursorOnly_pushFrame _ _ _
      | exact cursorOnly_setFrameSlot (cursorOnly_pushFrame _ _ _) _ _
      | exact cursorOnly_trans (cursorOnly_setFrameSlot (cursorOnly_pushFrame _ _ _) _ _) (ih _ _ _ _)
      | exact cursorOnly_trans (cursorOnly_pushFrame _ _ _) (ih _ _ _ _)

theorem firstLoop_frame :
    ∀ fuel j next off depth, cursorOnly j (firstLoop fuel j next off depth).1 := by
  intro fuel
  induction fuel with
  | zero => intro j next off depth; exact cursorOnly_refl j
  | succ f ih =>
    intro j next off depth
    simp only [firstLoop]
    repeat' split
    all_goals first
      | exact cursorOnly_refl _
      | exact cursorOnly_pushFrame _ _ _
      | exact cursorOnly_setFrameSlot (cursorOnly_pushFrame _ _ _) _ _
      | exact cursorOnly_trans (cursorOnly_setFrameSlot (cursorOnly_pushFrame _ _ _) _ _) (ih _ _ _ _)
      | exact cursorOnly_trans (cursorOnly_pushFrame _ _ _) (ih _ _ _ _)

theorem lastLoop_frame :
    ∀ fuel j next off depth, cursorOnly j (lastLoop fuel j next off depth).1 := by
  intro fuel
  induction fuel with
  | zero => intro j next off depth; exact cursorOnly_refl j
  | succ f ih =>
    intro j next off depth
    simp only [lastLoop]
    repeat' split
    all_goals first
      | exact cursorOnly_refl _
      | exact cursorOnly_pushFrame _ _ _
      | exact cursorOnly_setFrameSlot (cursorOnly_pushFrame _ _ _) _ _
      | exact cursorOnly_trans (cursorOnly_setFrameSlot (cursorOnly_pushFrame _ _ _) _ _) (ih _ _ _ _)
      | exact cursorOnly_trans (cursorOnly_pushFrame _ _ _) (ih _ _ _ _)

theorem nxtLoop_frame :
    ∀ fuel j, cursorOnly j (nxtLoop fuel j).1 := by
  intro fuel
  induction fuel with
  | zero => intro j; exact cursorOnly_refl j
  | succ f ih =>
    intro j
    simp only [nxtLoop]
    repeat' split
    all_goals first
      | exact cursorOnly_refl _
      | exact cursorOnly_setFrameSlot (cursorOnly_refl _) _ _
      | exact cursorOnly_trans (cursorOnly_setLevel (cursorOnly_refl _) _) (ih _)
      | exact cursorOnly_trans (cursorOnly_setFrameSlot (cursorOnly_refl _) _ _) (firstLoop_frame _ _ _ _ _)

theorem prvLoop_frame :
    ∀ fuel j, cursorOnly j (prvLoop fuel j).1 := by
  intro fuel
  induction fuel with
  | zero => intro j; exact cursorOnly_refl j
  | succ f ih =>
    intro j
    simp only [prvLoop]
    repeat' split
    all_goals first
      | exact cursorOnly_refl _
      | exact cursorOnly_setFrameSlot (cursorOnly_refl _) _ _
      | exact cursorOnly_trans (cursorOnly_setLevel (cursorOnly_refl _) _) (ih _)
      | exact cursorOnly_trans
          (cursorOnly_setLevel (cursorOnly_setFrameSlot (cursorOnly_refl _) _ _) _) (ih _)
      | exact cursorOnly_trans (cursorOnly_setFrameSlot (cursorOnly_refl _) _ _) (lastLoop_frame _ _ _ _ _)

/-- C8: the read-side operations `judy_slot`, `judy_strt`, `judy_end`,
`judy_nxt` and `judy_prv` modify only the cursor fields (`level` and
`stack`) of the handle: root slot, every node in the heap, the segment
state and the reuse lists are unchanged.  (`judy_key` takes the handle
read-only in the model — it writes only the caller's buffer — so its frame
condition is expressed by its type.) -/
theorem c8_read_ops_frame (j : JState) (buff : List Nat) (max fuel : Nat) :
    cursorOnly j (judy_slot j buff max fuel).1 ∧
    cursorOnly j (judy_strt j buff max fuel).1 ∧
    cursorOnly j (judy_end j fuel).1 ∧
    cursorOnly j (judy_nxt j fuel).1 ∧
    cursorOnly j (judy_prv j fuel).1 := by
  refine ⟨?_, ?_, ?_, ?_, ?_⟩
  · exact cursorOnly_trans (cursorOnly_setLevel (cursorOnly_refl _) _) (slotLoop_frame _ _ _ _ _ _ _)
  · unfold judy_strt
    split
    · exact cursorOnly_trans (cursorOnly_setLevel (cursorOnly_refl _) _) (firstLoop_frame _ _ _ _ _)
    · unfold judy_slot
      dsimp only
      split
      · next heq =>
        have h1 := slotLoop_frame buff max fuel { j with level := 0 }
          ({ j with level := 0 } : JState).root 0 0
        rw [heq] at h1
        exact cursorOnly_trans (cursorOnly_setLevel (cursorOnly_refl _) _) h1
      · next j' heq =>
        have h1 := slotLoop_frame buff max fuel { j with level := 0 }
          ({ j with level := 0 } : JState).root 0 0
        rw [heq] at h1
        have h2 : cursorOnly j j' := cursorOnly_trans (cursorOnly_setLevel (cursorOnly_refl _) _) h1
        unfold judy_nxt
        split
        · exact cursorOnly_trans h2
            (cursorOnly_trans (cursorOnly_setLevel (cursorOnly_refl _) _) (firstLoop_frame _ _ _ _ _))
        · exact cursorOnly_trans h2 (nxtLoop_frame _ _)
  · exact cursorOnly_trans (cursorOnly_setLevel (cursorOnly_refl _) _) (lastLoop_frame _ _ _ _ _)
  · unfold judy_nxt
    split
    · exact cursorOnly_trans (cursorOnly_setLevel (cursorOnly_refl _) _) (firstLoop_frame _ _ _ _ _)
    · exact nxtLoop_frame _ _
  · unfold judy_prv
    split
    · exact cursorOnly_trans (cursorOnly_setLevel (cursorOnly_refl _) _) (lastLoop_frame _ _ _ _ _)
    · exact prvLoop_frame _ _



theorem stackOK_le {j j' : JState} (h : stackOK j j') : j'.level ≤ j'.max := by
  obtain ⟨h1, h2, _⟩ := h; omega

theorem stackOK_refl (j : JState) (h : j.level ≤ j.max) : stackOK j j :=
  ⟨rfl, h, fun _ _ => rfl⟩

theorem stackOK_trans {j j' j'' : JState} (h1 : stackOK j j') (h2 : stackOK j' j'') :
    stackOK j j'' := by
  obtain ⟨a1, a2, a3⟩ := h1
  obtain ⟨b1, b2, b3⟩ := h2
  refine ⟨b1.trans a1, by omega, fun i hi => ?_⟩
  rw [b3 i (by omega), a3 i hi]

theorem stackOK_pushFrame (j : JState) (n o : Nat) (h : j.level ≤ j.max) :
    stackOK j (pushFrame j n o).1 := by
  refine ⟨rfl, ?_, fun i hi => ?_⟩ <;> simp only [pushFrame, supd]
  · split <;> omega
  · have : ¬ i = (if j.level < j.max then j.level + 1 else j.level) := by split <;> omega
    simp [this]

theorem pushFrame_le (j : JState) (n o : Nat) (h : j.level ≤ j.max) :
    (pushFrame j n o).2 ≤ j.max := by
  simp only [pushFrame]; split <;> omega

theorem stackOK_setFrameSlot {j j' : JState} (h : stackOK j j') {l : Nat}
    (hl : l ≤ j.max) (s : Int) : stackOK j (setFrameSlot j' l s) := by
  obtain ⟨h1, h2, h3⟩ := h
  refine ⟨h1, h2, fun i hi => ?_⟩
  have hne : ¬ i = l := by omega
  simp only [setFrameSlot, supd]
  simp only [hne, if_false]
  exact h3 i hi

theorem stackOK_setLevel {j j' : JState} (h : stackOK j j') {l : Nat}
    (hl : l ≤ j.max) : stackOK j { j' with level := l } := by
  obtain ⟨h1, h2, h3⟩ := h
  exact ⟨h1, hl, h3⟩

theorem slotLoop_stack (buff : List Nat) (max : Nat) :
    ∀ fuel j next off depth, j.level ≤ j.max →
      stackOK j (slotLoop buff max fuel j next off depth).1 := by
  intro fuel
  induction fuel with
  | zero => intro j next off depth h; exact stackOK_refl j h
  | succ f ih =>
    intro j next off depth h
    simp only [slotLoop]
    repeat' split
    all_goals first
      | exact stackOK_refl _ h
      | exact stackOK_pushFrame _ _ _ h
      | exact stackOK_setFrameSlot (stackOK_pushFrame _ _ _ h) (pushFrame_le _ _ _ h) _
      | exact stackOK_trans (stackOK_pushFrame _ _ _ h)
          (ih _ _ _ _ (stackOK_le (stackOK_pushFrame _ _ _ h)))
      | exact stackOK_trans
          (stackOK_setFrameSlot (stackOK_pushFrame _ _ _ h) (pushFrame_le _ _ _ h) _)
          (ih _ _ _ _ (stackOK_le (stackOK_setFrameSlot (stackOK_pushFrame _ _ _ h) (pushFrame_le _ _ _ h) _)))

theorem firstLoop_stack :
    ∀ fuel j next off depth, j.level ≤ j.max →
      stackOK j (firstLoop fuel j next off depth).1 := by
  intro fuel
  induction fuel with
  | zero => intro j next off depth h; exact stackOK_refl j h
  | succ f ih =>
    intro j next off depth h
    simp only [firstLoop]
    repeat' split
    all_goals first
      | exact stackOK_refl _ h
      | exact stackOK_pushFrame _ _ _ h
      | exact stackOK_setFrameSlot (stackOK_pushFrame _ _ _ h) (pushFrame_le _ _ _ h) _
      | exact stackOK_trans (stackOK_pushFrame _ _ _ h)
          (ih _ _ _ _ (stackOK_le (stackOK_pushFrame _ _ _ h)))
      | exact stackOK_trans
          (stackOK_setFrameSlot (stackOK_pushFrame _ _ _ h) (pushFrame_le _ _ _ h) _)
          (ih _ _ _ _ (stackOK_le (stackOK_setFrameSlot (stackOK_pushFrame _ _ _ h) (pushFrame_le _ _ _ h) _)))

theorem lastLoop_stack :
    ∀ fuel j next off depth, j.level ≤ j.max →
      stackOK j (lastLoop fuel j next off depth).1 := by
  intro fuel
  induction fuel with
  | zero => intro j next off depth h; exact stackOK_refl j h
  | succ f ih =>
    intro j next off depth h
    simp only [lastLoop]
    repeat' split
    all_goals first
      | exact stackOK_refl _ h
      | exact stackOK_pushFrame _ _ _ h
      | exact stackOK_setFrameSlot (stackOK_pushFrame _ _ _ h) (pushFrame_le _ _ _ h) _
      | exact stackOK_trans (stackOK_pushFrame _ _ _ h)
          (ih _ _ _ _ (stackOK_le (stackOK_pushFrame _ _ _ h)))
      | exact stackOK_trans
          (stackOK_setFrameSlot (stackOK_pushFrame _ _ _ h) (pushFrame_le _ _ _ h) _)
          (ih _ _ _ _ (stackOK_le (stackOK_setFrameSlot (stackOK_pushFrame _ _ _ h) (pushFrame_le _ _ _ h) _)))

theorem nxtLoop_stack :
    ∀ fuel j, j.level ≤ j.max → stackOK j (nxtLoop fuel j).1 := by
  intro fuel
  induction fuel with
  | zero => intro j h; exact stackOK_refl j h
  | succ f ih =>
    intro j h
    simp only [nxtLoop]
    repeat' split
    all_goals first
      | exact stackOK_refl _ h
      | exact stackOK_setFrameSlot (stackOK_refl _ h) h _
      | exact stackOK_trans (stackOK_setLevel (stackOK_refl _ h) (Nat.le_trans (Nat.sub_le _ _) h))
          (ih _ (stackOK_le (stackOK_setLevel (stackOK_refl _ h) (Nat.le_trans (Nat.sub_le _ _) h))))
      | exact stackOK_trans (stackOK_setFrameSlot (stackOK_refl _ h) h _)
          (firstLoop_stack _ _ _ _ _ (stackOK_le (stackOK_setFrameSlot (stackOK_refl _ h) h _)))

theorem prvLoop_stack :
    ∀ fuel j, j.level ≤ j.max → stackOK j (prvLoop fuel j).1 := by
  intro fuel
  induction fuel with
  | zero => intro j h; exact stackOK_refl j h
  | succ f ih =>
    intro j h
    simp only [prvLoop]
    repeat' split
    all_goals first
      | exact stackOK_refl _ h
      | exact stackOK_setFrameSlot (stackOK_refl _ h) h _
      | exact stackOK_trans (stackOK_setLevel (stackOK_refl _ h) (Nat.le_trans (Nat.sub_le _ _) h))
          (ih _ (stackOK_le (stackOK_setLevel (stackOK_refl _ h) (Nat.le_trans (Nat.sub_le _ _) h))))
      | exact stackOK_trans
          (stackOK_setLevel (stackOK_setFrameSlot (stackOK_refl _ h) h _) (Nat.le_trans (Nat.sub_le _ _) h))
          (ih _ (stackOK_le (stackOK_setLevel (stackOK_setFrameSlot (stackOK_refl _ h) h _) (Nat.le_trans (Nat.sub_le _ _) h))))
      | exact stackOK_trans (stackOK_setFrameSlot (stackOK_refl _ h) h _)
          (lastLoop_stack _ _ _ _ _ (stackOK_le (stackOK_setFrameSlot (stackOK_refl _ h) h _)))




theorem stackOK_of_meta {j j' : JState} (hm : cursorMeta j' = cursorMeta j)
    (h : j.level ≤ j.max) : stackOK j j' := by
  have h1 : j'.level = j.level := congrArg (fun p => p.1) hm
  have h2 : j'.max = j.max := congrArg (fun p => p.2.1) hm
  have h3 : j'.stack = j.stack := congrArg (fun p => p.2.2) hm
  exact ⟨h2, by omega, fun i _ => by rw [h3]⟩

@[simp] theorem setSlot_meta (j : JState) (a i v : Nat) :
    cursorMeta (setSlot j a i v) = cursorMeta j := rfl

@[simp] theorem setByte_meta (j : JState) (a i v : Nat) :
    cursorMeta (setByte j a i v) = cursorMeta j := rfl

@[simp] theorem judy_free_meta (j : JState) (a ty : Nat) :
    cursorMeta (judy_free j a ty) = cursorMeta j := rfl

@[simp] theorem writeLoc_meta (j : JState) (l : Loc) (v : Nat) :
    cursorMeta (writeLoc j l v) = cursorMeta j := by cases l <;> rfl

@[simp] theorem copyWithin_meta (j : JState) (a dst src : Nat) :
    ∀ n, cursorMeta (copyWithin j a dst src n) = cursorMeta j := by
  intro n
  induction n generalizing j with
  | zero => rfl
  | succ m ih => simp only [copyWithin]; exact ih _

@[simp] theorem zeroBytes_meta (j : JState) (a st : Nat) :
    ∀ n, cursorMeta (zeroBytes j a st n) = cursorMeta j := by
  intro n
  induction n generalizing j with
  | zero => rfl
  | succ m ih => simp only [zeroBytes]; exact ih _

@[simp] theorem delShift_meta (j : JState) (a ks : Nat) :
    ∀ n, cursorMeta (delShift j a ks n) = cursorMeta j := by
  intro n
  induction n generalizing j with
  | zero => rfl
  | succ m ih =>
    simp only [delShift]
    exact (ih _).trans (copyWithin_meta _ _ _ _ _)

theorem judy_nxt_stack (j : JState) (fuel : Nat) (h : j.level ≤ j.max) :
    stackOK j (judy_nxt j fuel).1 := by
  unfold judy_nxt
  split
  · exact stackOK_trans (stackOK_setLevel (stackOK_refl _ h) (Nat.zero_le _))
      (firstLoop_stack _ _ _ _ _ (Nat.zero_le _))
  · exact nxtLoop_stack _ _ h

theorem judy_prv_stack (j : JState) (fuel : Nat) (h : j.level ≤ j.max) :
    stackOK j (judy_prv j fuel).1 := by
  unfold judy_prv
  split
  · exact stackOK_trans (stackOK_setLevel (stackOK_refl _ h) (Nat.zero_le _))
      (lastLoop_stack _ _ _ _ _ (Nat.zero_le _))
  · exact prvLoop_stack _ _ h

theorem delLoop_stack :
    ∀ fuel j, j.level ≤ j.max → stackOK j (delLoop fuel j).1 := by
  intro fuel
  induction fuel with
  | zero => intro j h; exact stackOK_refl j h
  | succ f ih =>
    intro j h
    simp only [delLoop]
    repeat' split
    all_goals first
      | exact stackOK_refl _ h
      | exact ⟨rfl, h, fun _ _ => rfl⟩
      | exact stackOK_trans (stackOK_of_meta (by simp) h) (judy_prv_stack _ _ (stackOK_le (stackOK_of_meta (by simp) h)))
      | exact stackOK_trans
          (stackOK_setFrameSlot (stackOK_of_meta (by simp) h) h _)
          (judy_prv_stack _ _ (stackOK_le (stackOK_setFrameSlot (stackOK_of_meta (by simp) h) h _)))
      | exact stackOK_trans
          (stackOK_setLevel (stackOK_of_meta (by simp) h) (Nat.le_trans (Nat.sub_le _ _) h))
          (ih _ (stackOK_le (stackOK_setLevel (stackOK_of_meta (by simp) h) (Nat.le_trans (Nat.sub_le _ _) h))))



@[simp] theorem storeLE_meta : ∀ (n : Nat) (j : JState) (a off v : Nat),
    cursorMeta (storeLE j a off v n) = cursorMeta j := by
  intro n
  induction n with
  | zero => intro j a off v; rfl
  | succ m ih => intro j a off v; simp only [storeLE]; exact ih _ _ _ _

@[simp] theorem copyNodeBytes_meta (j : JState) (d dO s sO : Nat) :
    ∀ n, cursorMeta (copyNodeBytes j d dO s sO n) = cursorMeta j := by
  intro n
  induction n generalizing j with
  | zero => rfl
  | succ m ih => simp only [copyNodeBytes]; exact ih _

@[simp] theorem promoteSlots_meta (j : JState) (na oa d : Nat) :
    ∀ n, cursorMeta (promoteSlots j na oa d n) = cursorMeta j := by
  intro n
  induction n generalizing j with
  | zero => rfl
  | succ m ih => simp only [promoteSlots]; exact ih _

@[simp] theorem promoteSlots2_meta (j : JState) (na oa d idx : Nat) :
    ∀ n, cursorMeta (promoteSlots2 j na oa d idx n) = cursorMeta j := by
  intro n
  induction n generalizing j with
  | zero => rfl
  | succ m ih => simp only [promoteSlots2]; rw [setSlot_meta]; exact ih _

@[simp] theorem radixCopy_meta (j : JState) (na ks oa start cnt newcnt : Nat) :
    ∀ n, cursorMeta (radixCopy j na ks oa start cnt newcnt n) = cursorMeta j := by
  intro n
  induction n generalizing j with
  | zero => rfl
  | succ m ih =>
    simp only [radixCopy]
    exact (ih _).trans ((setSlot_meta _ _ _ _).trans (copyNodeBytes_meta _ _ _ _ _ _))

@[simp] theorem moveDownB_meta : ∀ (n : Nat) (j : JState) (a ks p : Nat),
    cursorMeta (moveDownB j a ks p n) = cursorMeta j := by
  intro n
  induction n with
  | zero => intro j a ks p; rfl
  | succ m ih => intro j a ks p; simp only [moveDownB]; exact ih _ _ _ _

@[simp] theorem slotsDown_meta : ∀ (n : Nat) (j : JState) (a idx : Nat),
    cursorMeta (slotsDown j a idx n) = cursorMeta j := by
  intro n
  induction n with
  | zero => intro j a idx; rfl
  | succ m ih => intro j a idx; simp only [slotsDown]; exact ih _ _ _

@[simp] theorem revCopy_meta (j : JState) (na oa off : Nat) :
    ∀ n, cursorMeta (revCopy j na oa off n) = cursorMeta j := by
  intro n
  induction n generalizing j with
  | zero => rfl
  | succ m ih => simp only [revCopy]; exact ih _

@[simp] theorem copyFromBuff_meta (j : JState) (a st : Nat) (buff : List Nat) (boff : Nat) :
    ∀ n, cursorMeta (copyFromBuff j a st buff boff n) = cursorMeta j := by
  intro n
  induction n generalizing j with
  | zero => rfl
  | succ m ih => simp only [copyFromBuff]; exact ih _

@[simp] theorem fillPartialB_meta : ∀ (n : Nat) (j : JState) (na : Nat) (buff : List Nat)
    (max off jdx : Nat), cursorMeta (fillPartialB j na buff max off jdx n) = cursorMeta j := by
  intro n
  induction n with
  | zero => intro j na buff max off jdx; rfl
  | succ m ih =>
    intro j na buff max off jdx
    simp only [fillPartialB]
    split
    · exact ih _ _ _ _ _ _
    · exact ih _ _ _ _ _ _

theorem judy_alloc_meta {j : JState} {ty : Nat} {j' : JState} {a : Nat}
    (h : judy_alloc j ty = some (j', a)) : cursorMeta j' = cursorMeta j := by
  unfold judy_alloc at h
  split at h
  · simp at h
  · dsimp only at h
    split at h
    · rw [Option.some.injEq] at h
      obtain ⟨h1, h2⟩ := Prod.mk.injEq .. |>.mp h.symm
      subst h1
      rfl
    · split at h
      · split at h
        · rw [Option.some.injEq] at h
          obtain ⟨h1, h2⟩ := Prod.mk.injEq .. |>.mp h.symm
          subst h1
          rfl
        · simp at h
      · split at h
        · rw [Option.some.injEq] at h
          obtain ⟨h1, h2⟩ := Prod.mk.injEq .. |>.mp h.symm
          subst h1
          rfl
        · split at h
          · rw [Option.some.injEq] at h
            obtain ⟨h1, h2⟩ := Prod.mk.injEq .. |>.mp h.symm
            subst h1
            rfl
          · simp at h

theorem judy_radix_meta {j : JState} {ra oa start slotEnd ks key depth : Nat} {j' : JState}
    (h : judy_radix j ra oa start slotEnd ks key depth = some j') :
    cursorMeta j' = cursorMeta j := by
  unfold judy_radix at h
  simp only [bind, Option.bind, pure] at h
  split at h
  · cases halloc : judy_alloc j JUDY_radix with
    | none => rw [halloc] at h; simp at h
    | some p =>
      obtain ⟨j1, t⟩ := p
      rw [halloc] at h
      dsimp only at h
      split at h
      · rw [Option.some.injEq] at h
        subst h
        simp [judy_alloc_meta halloc]
      · cases halloc2 : judy_alloc (setSlot j1 ra (key / 16) (mkSlot t JUDY_radix))
            (radixNodeType (slotEnd - start) ks 1 6) with
        | none => rw [halloc2] at h; simp at h
        | some q =>
          obtain ⟨j2, t2⟩ := q
          rw [halloc2] at h
          dsimp only at h
          rw [Option.some.injEq] at h
          subst h
          have m1 := judy_alloc_meta halloc
          have m2 := judy_alloc_meta halloc2
          simp only [radixCopy_meta, setSlot_meta] at m1 m2 ⊢
          exact m2.trans m1
  · split at h
    · rw [Option.some.injEq] at h
      subst h
      simp
    · cases halloc2 : judy_alloc j (radixNodeType (slotEnd - start) ks 1 6) with
      | none => rw [halloc2] at h; simp at h
      | some q =>
        obtain ⟨j2, t2⟩ := q
        rw [halloc2] at h
        dsimp only at h
        rw [Option.some.injEq] at h
        subst h
        have m2 := judy_alloc_meta halloc2
        simp only [radixCopy_meta, setSlot_meta] at m2 ⊢
        exact m2



theorem bindE {α β : Type} {x : Option α} {f : α → Option β} {b : β}
    (h : x >>= f = some b) : ∃ a, x = some a ∧ f a = some b := by
  cases x with
  | none => exact absurd h (by simp)
  | some a => exact ⟨a, rfl, by simpa using h⟩

theorem splitLoop_meta :
    ∀ n {j : JState} {ra oa ks depth cnt slot start key : Nat} {j' : JState},
      splitLoop j ra oa ks depth cnt slot start key n = some j' →
      cursorMeta j' = cursorMeta j := by
  intro n
  induction n with
  | zero =>
    intro j ra oa ks depth cnt slot start key j' h
    simp only [splitLoop] at h
    obtain ⟨j1, hr, h⟩ := bindE h
    have h := Option.some.inj h
    subst h
    simpa using judy_radix_meta hr
  | succ m ih =>
    intro j ra oa ks depth cnt slot start key j' h
    simp only [splitLoop] at h
    repeat' split at h
    all_goals first
      | exact ih h
      | (obtain ⟨j1, hr, h⟩ := bindE h
         exact (ih h).trans (judy_radix_meta hr))
      | (obtain ⟨j1, hr, h⟩ := bindE h
         have h := Option.some.inj h
         subst h
         simpa using judy_radix_meta hr)

theorem judy_splitnode_meta {j : JState} {next : Loc} {size keysize depth : Nat} {j' : JState}
    (h : judy_splitnode j next size keysize depth = some j') :
    cursorMeta j' = cursorMeta j := by
  unfold judy_splitnode at h
  obtain ⟨p, halloc, h⟩ := bindE h
  obtain ⟨j1, ra⟩ := p
  exact (splitLoop_meta _ h).trans ((writeLoc_meta _ _ _).trans (judy_alloc_meta halloc))

theorem splitSpanLoop_meta :
    ∀ n {j : JState} {oa : Nat} {next : Loc} {off cnt : Nat} {j' : JState} {l : Loc},
      splitSpanLoop j oa next off cnt n = some (j', l) →
      cursorMeta j' = cursorMeta j := by
  intro n
  induction n with
  | zero =>
    intro j oa next off cnt j' l h
    simp only [splitSpanLoop] at h
    injection h with h
    injection h with h1 h2
    subst h1
    rfl
  | succ m ih =>
    intro j oa next off cnt j' l h
    simp only [splitSpanLoop] at h
    obtain ⟨p, halloc, h⟩ := bindE h
    obtain ⟨j1, na⟩ := p
    dsimp only at h
    split at h
    · exact (ih h).trans ((revCopy_meta _ _ _ _ _).trans
        ((writeLoc_meta _ _ _).trans (judy_alloc_meta halloc)))
    · injection h with h
      injection h with h1 h2
      subst h1
      exact (revCopy_meta _ _ _ _ _).trans ((writeLoc_meta _ _ _).trans (judy_alloc_meta halloc))

theorem judy_splitspan_meta {j : JState} {next : Loc} {oa : Nat} {j' : JState}
    (h : judy_splitspan j next oa = some j') : cursorMeta j' = cursorMeta j := by
  unfold judy_splitspan at h
  obtain ⟨p, hloop, h⟩ := bindE h
  obtain ⟨j1, l⟩ := p
  have h := Option.some.inj h
  subst h
  exact ((judy_free_meta _ _ _).trans (writeLoc_meta _ _ _)).trans (splitSpanLoop_meta _ hloop)

theorem stackOK_stackWrite {j j' : JState} (hm : cursorMeta j' = cursorMeta j)
    (h : j.level ≤ j.max) (fr : JudyStack) :
    stackOK j { j' with stack := supd j'.stack j'.level fr } := by
  have h1 : j'.level = j.level := congrArg (fun p => p.1) hm
  have h2 : j'.max = j.max := congrArg (fun p => p.2.1) hm
  have h3 : j'.stack = j.stack := congrArg (fun p => p.2.2) hm
  refine ⟨h2, ?_, fun i hi => ?_⟩
  · show j'.level ≤ j.max
    omega
  · show supd j'.stack j'.level fr i = j.stack i
    simp only [supd, h3, h1]
    have hne : ¬ i = j.level := by omega
    simp [hne]

theorem stackOK_judy_free {j j' : JState} (h : stackOK j j') (a ty : Nat) :
    stackOK j (judy_free j' a ty) := h

theorem judy_promote_stack {j : JState} {next : Loc} {idx value keysize : Nat}
    {j' : JState} {loc : Loc}
    (hp : judy_promote j next idx value keysize = some (j', loc)) (h : j.level ≤ j.max) :
    stackOK j j' := by
  unfold judy_promote at hp
  obtain ⟨p, halloc, hp⟩ := bindE hp
  obtain ⟨j1, na⟩ := p
  dsimp only at hp
  injection hp with hp
  injection hp with h1 h2
  subst h1
  refine stackOK_judy_free (stackOK_stackWrite ?_ h _) _ _
  simp only [promoteSlots2_meta, copyNodeBytes_meta, storeLE_meta, promoteSlots_meta,
    writeLoc_meta]
  exact judy_alloc_meta halloc




theorem cellOK_trans {j S : JState} (h1 : stackOK j S) {r : CellRes}
    (h2 : cellOK S r) : cellOK j r := by
  cases r with
  | crash => trivial
  | out j' => exact stackOK_trans h1 h2
  | ret j' l => exact stackOK_trans h1 h2

theorem stackOK_pushFrameFull (j : JState) (n o : Nat) (h : j.level ≤ j.max) :
    stackOK j (pushFrameFull j n o) := by
  refine ⟨rfl, ?_, fun i hi => ?_⟩ <;> simp only [pushFrameFull, supd]
  · split <;> omega
  · have hne : ¬ i = (if j.level < j.max then j.level + 1 else j.level) := by
      split <;> omega
    simp [hne]

theorem stackOK_pushFrameFull2 {j j2 : JState} (h : stackOK j j2) (n o : Nat) :
    stackOK j (pushFrameFull j2 n o) :=
  stackOK_trans h (stackOK_pushFrameFull _ _ _ (stackOK_le h))

theorem stackOK_decLevel {j j2 : JState} (h : stackOK j j2) :
    stackOK j { j2 with level := j2.level - 1 } :=
  stackOK_setLevel h (Nat.le_trans (Nat.sub_le _ _) h.2.1)

theorem spanCreate_stack (buff : List Nat) (max : Nat) :
    ∀ fuel j next off, j.level ≤ j.max →
      cellOK j (spanCreate buff max fuel j next off) := by
  intro fuel
  induction fuel with
  | zero => intro j next off h; exact stackOK_refl _ h
  | succ f ih =>
    intro j next off h
    rw [spanCreate]
    split
    · cases halloc : judy_alloc j JUDY_span with
      | none => trivial
      | some p =>
        obtain ⟨j1, na⟩ := p
        have hS : stackOK j (pushFrameFull
            (copyFromBuff (writeLoc j1 next (mkSlot na JUDY_span)) na 0 buff off
              (min JUDY_span_bytes (max - off))) (mkSlot na JUDY_span) off) := by
          refine stackOK_pushFrameFull2 (stackOK_of_meta ?_ h) _ _
          simp only [copyFromBuff_meta, writeLoc_meta]
          exact judy_alloc_meta halloc
        dsimp only
        split
        · exact hS
        · exact cellOK_trans hS (ih _ _ _ (stackOK_le hS))
    · exact stackOK_refl _ h

theorem digitCreate_stack (buff : List Nat) :
    ∀ fuel j next off depth, j.level ≤ j.max →
      cellOK j (digitCreate buff fuel j next off depth) := by
  intro fuel
  induction fuel with
  | zero => intro j next off depth h; exact stackOK_refl _ h
  | succ f ih =>
    intro j next off depth h
    rw [digitCreate]
    split
    · cases halloc : judy_alloc j JUDY_1 with
      | none => trivial
      | some p =>
        obtain ⟨j1, na⟩ := p
        have hS : stackOK j (pushFrameFull
            (storeLE (writeLoc j1 next (mkSlot na JUDY_1)) na 0 (srcWord buff depth) 8)
            (mkSlot na JUDY_1) off) := by
          refine stackOK_pushFrameFull2 (stackOK_of_meta ?_ h) _ _
          simp only [storeLE_meta, writeLoc_meta]
          exact judy_alloc_meta halloc
        dsimp only
        exact cellOK_trans hS (ih _ _ _ _ (stackOK_le hS))
    · exact stackOK_refl _ h

theorem cellCreate_stack (buff : List Nat) (max fuel : Nat) (j : JState) (next : Loc)
    (off depth : Nat) (h : j.level ≤ j.max) :
    cellOK j (cellCreate buff max fuel j next off depth) := by
  rw [cellCreate]
  split
  · cases halloc : judy_alloc j JUDY_1 with
    | none => trivial
    | some p =>
      obtain ⟨j1, na⟩ := p
      dsimp only
      split
      · have hB : stackOK j (pushFrameFull
            (storeLE (writeLoc j1 next (mkSlot na JUDY_1)) na 0 (srcWord buff depth)
              (JUDY_key_size - off % 8)) (mkSlot na JUDY_1) off) := by
          refine stackOK_pushFrameFull2 (stackOK_of_meta ?_ h) _ _
          simp only [storeLE_meta, writeLoc_meta]
          exact judy_alloc_meta halloc
        split
        · exact cellOK_trans hB (spanCreate_stack _ _ _ _ _ _ (stackOK_le hB))
        · exact cellOK_trans hB (digitCreate_stack _ _ _ _ _ _ (stackOK_le hB))
      · have hB : stackOK j (pushFrameFull
            (fillPartialB (writeLoc j1 next (mkSlot na JUDY_1)) na buff max off 0
              (JUDY_key_size - off % 8)) (mkSlot na JUDY_1) off) := by
          refine stackOK_pushFrameFull2 (stackOK_of_meta ?_ h) _ _
          simp only [fillPartialB_meta, writeLoc_meta]
          exact judy_alloc_meta halloc
        split
        · exact cellOK_trans hB (spanCreate_stack _ _ _ _ _ _ (stackOK_le hB))
        · exact cellOK_trans hB (digitCreate_stack _ _ _ _ _ _ (stackOK_le hB))
  · split
    · exact spanCreate_stack _ _ _ _ _ _ h
    · exact digitCreate_stack _ _ _ _ _ _ h



theorem pushFrame_eq_stackOK {j j1 : JState} {n o lvl : Nat}
    (heq : pushFrame j n o = (j1, lvl)) (h : j.level ≤ j.max) :
    stackOK j j1 ∧ lvl ≤ j.max := by
  have h1 : (pushFrame j n o).1 = j1 := congrArg Prod.fst heq
  have h2 : (pushFrame j n o).2 = lvl := congrArg Prod.snd heq
  rw [← h1, ← h2]
  exact ⟨stackOK_pushFrame _ _ _ h, pushFrame_le _ _ _ h⟩

set_option maxHeartbeats 2000000 in
theorem cellLoop_stack (buff : List Nat) (max : Nat) :
    ∀ fuel j next off depth, j.level ≤ j.max →
      cellOK j (cellLoop buff max fuel j next off depth) := by
  intro fuel
  induction fuel with
  | zero => intro j next off depth h; exact stackOK_refl _ h
  | succ f ih =>
    intro j next off depth h
    rw [cellLoop]
    split
    · exact cellCreate_stack _ _ _ _ _ _ _ h
    · split
      next j1 lvl heq =>
      obtain ⟨hp1, hp2⟩ := pushFrame_eq_stackOK heq h
      dsimp only
      split
      · -- radix case
        split
        · trivial
        · next j2 heq2 =>
          have hj2 : stackOK j j2 := by
            repeat' split at heq2
            all_goals first
              | (rw [Option.map_eq_some'] at heq2
                 obtain ⟨p, halloc, hf⟩ := heq2
                 obtain ⟨jA, tA⟩ := p
                 rw [← hf]
                 exact stackOK_trans hp1
                   (stackOK_of_meta (by simpa using judy_alloc_meta halloc) (stackOK_le hp1)))
              | (injection heq2 with heq2
                 rw [← heq2]
                 exact hp1)
          have hsf : ∀ s : Int, stackOK j (setFrameSlot j2 lvl s) :=
            fun s => stackOK_setFrameSlot hj2 hp2 s
          repeat' split
          all_goals first
            | exact hsf _
            | exact cellOK_trans (hsf _) (ih _ _ _ _ (stackOK_le (hsf _)))
      · split
        · -- span case
          repeat' split
          all_goals first
            | exact hp1
            | exact cellOK_trans hp1 (ih _ _ _ _ (stackOK_le hp1))
            | trivial
            | (rename_i j2 heq2
               exact cellOK_trans
                 (stackOK_decLevel (stackOK_trans hp1
                   (stackOK_of_meta (judy_splitspan_meta heq2) (stackOK_le hp1))))
                 (ih _ _ _ _ (stackOK_le (stackOK_decLevel (stackOK_trans hp1
                   (stackOK_of_meta (judy_splitspan_meta heq2) (stackOK_le hp1)))))))
        · -- linear case
          have hsf : ∀ s : Int, stackOK j (setFrameSlot j1 lvl s) :=
            fun s => stackOK_setFrameSlot hp1 hp2 s
          repeat' split
          all_goals first
            | exact hsf _
            | exact cellOK_trans (hsf _) (ih _ _ _ _ (stackOK_le (hsf _)))
            | exact stackOK_trans (hsf _) (stackOK_of_meta
                ((setSlot_meta _ _ _ _).trans ((slotsDown_meta _ _ _ _).trans
                  ((storeLE_meta _ _ _ _ _).trans (moveDownB_meta _ _ _ _ _))))
                (stackOK_le (hsf _)))
            | (refine cellOK_trans (stackOK_trans (hsf _) (stackOK_of_meta
                 ((setSlot_meta _ _ _ _).trans ((slotsDown_meta _ _ _ _).trans
                   ((storeLE_meta _ _ _ _ _).trans (moveDownB_meta _ _ _ _ _))))
                 (stackOK_le (hsf _)))) (ih _ _ _ _ ?_)
               exact stackOK_le (stackOK_trans (hsf _) (stackOK_of_meta
                 ((setSlot_meta _ _ _ _).trans ((slotsDown_meta _ _ _ _).trans
                   ((storeLE_meta _ _ _ _ _).trans (moveDownB_meta _ _ _ _ _))))
                 (stackOK_le (hsf _)))))
            | trivial
            | (rename_i j4 loc4 heqp
               first
                 | exact stackOK_trans (hsf _) (judy_promote_stack heqp (stackOK_le (hsf _)))
                 | exact cellOK_trans (stackOK_trans (hsf _)
                       (judy_promote_stack heqp (stackOK_le (hsf _))))
                     (ih _ _ _ _ (stackOK_le (stackOK_trans (hsf _)
                       (judy_promote_stack heqp (stackOK_le (hsf _)))))))
            | (rename_i j4 loc4 heqp hx
               first
                 | exact stackOK_trans (hsf _) (judy_promote_stack heqp (stackOK_le (hsf _)))
                 | exact cellOK_trans (stackOK_trans (hsf _)
                       (judy_promote_stack heqp (stackOK_le (hsf _))))
                     (ih _ _ _ _ (stackOK_le (stackOK_trans (hsf _)
                       (judy_promote_stack heqp (stackOK_le (hsf _)))))))
            | (rename_i j4 heq4
               exact cellOK_trans
                 (stackOK_decLevel (stackOK_trans (hsf _)
                   (stackOK_of_meta (judy_splitnode_meta heq4) (stackOK_le (hsf _)))))
                 (ih _ _ _ _ (stackOK_le (stackOK_decLevel (stackOK_trans (hsf _)
                   (stackOK_of_meta (judy_splitnode_meta heq4) (stackOK_le (hsf _))))))))


/-- C9: every operation preserves the cursor invariant `level ≤ max`
(`0 ≤ level` holds by the `Nat` representation): each push site increments
`level` only when it is strictly below `max`, so the resulting level stays
at most `max` and no frame at a stack index greater than `max` is ever
written. -/
theorem c9_cursor_bound (j : JState) (buff : List Nat) (max fuel : Nat)
    (h : j.level ≤ j.max) :
    stackOK j (judy_slot j buff max fuel).1 ∧
    stackOK j (judy_strt j buff max fuel).1 ∧
    stackOK j (judy_end j fuel).1 ∧
    stackOK j (judy_nxt j fuel).1 ∧
    stackOK j (judy_prv j fuel).1 ∧
    stackOK j (judy_del j fuel).1 ∧
    cellOK j (judy_cell j buff max fuel) := by
  have h0 : stackOK j ({ j with level := 0 } : JState) :=
    stackOK_setLevel (stackOK_refl j h) (Nat.zero_le _)
  refine ⟨?_, ?_, ?_, ?_, ?_, ?_, ?_⟩
  · exact stackOK_trans h0 (slotLoop_stack _ _ _ _ _ _ _ (stackOK_le h0))
  · unfold judy_strt
    split
    · exact stackOK_trans h0 (firstLoop_stack _ _ _ _ _ (stackOK_le h0))
    · unfold judy_slot
      dsimp only
      split
      · next heq =>
        have h1 := slotLoop_stack buff max fuel { j with level := 0 }
          ({ j with level := 0 } : JState).root 0 0 (stackOK_le h0)
        rw [heq] at h1
        exact stackOK_trans h0 h1
      · next j' heq =>
        have h1 := slotLoop_stack buff max fuel { j with level := 0 }
          ({ j with level := 0 } : JState).root 0 0 (stackOK_le h0)
        rw [heq] at h1
        have h2 : stackOK j j' := stackOK_trans h0 h1
        exact stackOK_trans h2 (judy_nxt_stack _ _ (stackOK_le h2))
  · exact stackOK_trans h0 (lastLoop_stack _ _ _ _ _ (stackOK_le h0))
  · exact judy_nxt_stack _ _ h
  · exact judy_prv_stack _ _ h
  · exact delLoop_stack _ _ h
  · exact cellOK_trans h0 (cellLoop_stack _ _ _ _ _ _ _ (stackOK_le h0))

/-- C9 witness: the invariant applied to the concrete trie `exZZ`. -/
theorem c9_witness :
    exZZ.level ≤ exZZ.max ∧
    (stackOK exZZ (judy_slot exZZ [97] 1 9).1 ∧
     stackOK exZZ (judy_strt exZZ [97] 1 9).1 ∧
     stackOK exZZ (judy_end exZZ 9).1 ∧
     stackOK exZZ (judy_nxt exZZ 9).1 ∧
     stackOK exZZ (judy_prv exZZ 9).1 ∧
     stackOK exZZ (judy_del exZZ 9).1 ∧
     cellOK exZZ (judy_cell exZZ [97] 1 9)) :=
  ⟨by decide, c9_cursor_bound exZZ [97] 1 9 (by decide)⟩


end Judy
